import Mathlib

/-!
Verification of the `yahtz` dice-game rule engine.

This file shallowly embeds the core of the repository
(`boxes.py`, `dicetypes.py`, `scorecheck.py`, `scorecard.py`, `montecarlo.py`)
into Lean and proves the specification's claims about it.

Modelling conventions:
* A `DiceRoll` is a `List Nat`; the constructor's validation (exactly 5 dice,
  faces 1..6) becomes the predicate `ValidRoll`, assumed by theorems that
  quantify over rolls.
* Python `Counter(roll)` is embedded as `counterList`, the list of
  (value, count) pairs in first-occurrence order with total counts, which is
  exactly the iteration order Python's `Counter`/`most_common` observes.
* Python floats in the Monte Carlo statistics are embedded as rationals `ℚ`;
  the claims under verification assert exact identities of these values.
* Mutating methods (`zero_box`, `set_box_score`) become functions returning
  `Except FillError Scorecard`; faithful because in the source every check
  precedes every mutation.
-/

set_option maxHeartbeats 4000000

/- `Rat.mul`/`Rat.inv`/`Rat.div` are `@[irreducible]` in Batteries, which
blocks `decide`-style evaluation of the exact rational statistics below; the
kernel itself reduces them fine, so restore semireducibility. -/
set_option allowUnsafeReducibility true
attribute [semireducible] Rat.mul Rat.inv Rat.div

namespace Yahtz

/-- The two scorecard sections (`boxes.py`, `Section`). -/
inductive Section where
  | UPPER
  | LOWER
deriving DecidableEq, Repr

/-- The 13 scoring boxes, constructors in the source's enumeration order
(`boxes.py`, `Box`). -/
inductive Box where
  | ACES
  | TWOS
  | THREES
  | FOURS
  | FIVES
  | SIXES
  | THREE_OF_A_KIND
  | FOUR_OF_A_KIND
  | FULL_HOUSE
  | SMALL_STRAIGHT
  | LARGE_STRAIGHT
  | YAHTZEE
  | CHANCE
deriving DecidableEq, Repr

/-- All boxes, in enumeration order: the iteration order of `for c in cls`
and of every `dict` keyed by `Box` in the source. -/
def Box.all : List Box :=
  [.ACES, .TWOS, .THREES, .FOURS, .FIVES, .SIXES,
   .THREE_OF_A_KIND, .FOUR_OF_A_KIND, .FULL_HOUSE,
   .SMALL_STRAIGHT, .LARGE_STRAIGHT, .YAHTZEE, .CHANCE]

/-- `Box.section` (`boxes.py`). -/
def Box.sectionOf : Box → Section
  | .ACES | .TWOS | .THREES | .FOURS | .FIVES | .SIXES => .UPPER
  | _ => .LOWER

/-- `Box.die_number` (`boxes.py`): the face value of an upper box. -/
def Box.dieNumber : Box → Option Nat
  | .ACES => some 1
  | .TWOS => some 2
  | .THREES => some 3
  | .FOURS => some 4
  | .FIVES => some 5
  | .SIXES => some 6
  | _ => none

/-- `Box.get_upper_boxes` (`boxes.py`). -/
def Box.upperBoxes : List Box := Box.all.filter (fun c => c.sectionOf = Section.UPPER)

/-- `Box.get_lower_boxes` (`boxes.py`). -/
def Box.lowerBoxes : List Box := Box.all.filter (fun c => c.sectionOf = Section.LOWER)

/-- `Box.from_scoring_number` (`boxes.py`).  The source indexes a dict with
keys 1..6; the default branch is unreachable because the argument is always a
face of a validated `DiceRoll`. -/
def Box.fromScoringNumber : Nat → Box
  | 1 => .ACES
  | 2 => .TWOS
  | 3 => .THREES
  | 4 => .FOURS
  | 5 => .FIVES
  | 6 => .SIXES
  | _ => .ACES

/-- The `DiceRoll` constructor's validation (`dicetypes.py`): exactly 5 dice,
each face between 1 and 6. -/
def ValidRoll (r : List Nat) : Prop :=
  r.length = 5 ∧ ∀ d ∈ r, 1 ≤ d ∧ d ≤ 6

instance : DecidablePred ValidRoll := fun r => by
  unfold ValidRoll; infer_instance

/-- The distinct values of a list in first-occurrence order: the key order of
Python's `Counter(roll)`. -/
def uniqueKeys : List Nat → List Nat
  | [] => []
  | x :: xs => x :: (uniqueKeys xs).filter (fun y => y ≠ x)

/-- Embedding of Python's `Counter(roll)`: (value, total count) pairs listed in
first-occurrence order, the order `Counter` iterates and `most_common` uses for
stable ties. -/
def counterList (r : List Nat) : List (Nat × Nat) :=
  (uniqueKeys r).map (fun v => (v, r.count v))

/-- `max(Counter(roll).values())` with 0 for the (unreachable) empty roll. -/
def maxCount (r : List Nat) : Nat :=
  (counterList r).foldl (fun m p => max m p.2) 0

/-- Python's `sorted` on a list of numbers (ascending insertion sort). -/
def sortAsc (l : List Nat) : List Nat := l.insertionSort (· ≤ ·)

/-- `sorted(self._numbers)` (`dicetypes.py`). -/
def sortedNumbers (r : List Nat) : List Nat := sortAsc r

/-- `sorted(number_counts)` in the full-house test (`dicetypes.py`). -/
def sortedCounts (r : List Nat) : List Nat :=
  sortAsc ((counterList r).map (fun p => p.2))

/-- `DiceRoll.__contains__` for a `Box` element (`dicetypes.py`): the static
combination test of each box. -/
def boxInRoll (box : Box) (r : List Nat) : Bool :=
  if box.sectionOf = Section.UPPER ∨ box = Box.CHANCE then
    true
  else
    match box with
    | .THREE_OF_A_KIND => 3 ≤ maxCount r
    | .FOUR_OF_A_KIND => 4 ≤ maxCount r
    | .FULL_HOUSE => sortedCounts r = [2, 3] ∨ sortedCounts r = [5]
    | .SMALL_STRAIGHT =>
        [[1, 2, 3, 4], [2, 3, 4, 5], [3, 4, 5, 6]].any
          (fun s => s.all (fun n => n ∈ r))
    | .LARGE_STRAIGHT =>
        sortedNumbers r = [1, 2, 3, 4, 5] ∨ sortedNumbers r = [2, 3, 4, 5, 6]
    | .YAHTZEE => maxCount r = 5
    | _ => false

/-- `Scoreability` (`scorecheck.py`). -/
inductive Scoreability where
  | NOT_SCOREABLE
  | POINTS_SCOREABLE
  | ZERO_SCOREABLE
deriving DecidableEq, Repr

/-- `_calculate_upper_score` (`scorecheck.py`). -/
def calculateUpperScore (box : Box) (r : List Nat) : Nat :=
  match box.dieNumber with
  | some t => (r.filter (fun n => n = t)).sum
  | none => 0

/-- `calculate_score` (`scorecheck.py`). -/
def calculateScore (box : Box) (r : List Nat) : Nat :=
  match box with
  | .ACES | .TWOS | .THREES | .FOURS | .FIVES | .SIXES => calculateUpperScore box r
  | .FULL_HOUSE => 25
  | .SMALL_STRAIGHT => 30
  | .LARGE_STRAIGHT => 40
  | .YAHTZEE => 50
  | .THREE_OF_A_KIND | .FOUR_OF_A_KIND | .CHANCE => r.sum

/-- `Scorecard` state (`scorecard.py`): every box's optional score plus the
Yahtzee bonus counter.  `ScorecardLike`/`ScorecardView` read the same data. -/
structure Scorecard where
  boxScores : Box → Option Nat
  yahtzeeBonusCount : Nat

/-- The freshly constructed scorecard: all boxes `None`, zero bonuses. -/
def Scorecard.empty : Scorecard := ⟨fun _ => none, 0⟩

/-- `_is_scored` (`scorecheck.py`). -/
def isScored (box : Box) (card : Scorecard) : Bool :=
  (card.boxScores box).isSome

/-- `_joker_rules_active` (`scorecheck.py`). -/
def jokerRulesActive (r : List Nat) (card : Scorecard) : Bool :=
  boxInRoll Box.YAHTZEE r && isScored Box.YAHTZEE card

/-- `_check_joker_scoreability` (`scorecheck.py`). -/
def checkJokerScoreability (box : Box) (r : List Nat) (card : Scorecard) :
    Scoreability :=
  let matchedBox := Box.fromScoringNumber (r.getD 0 0)
  if ¬ isScored matchedBox card then
    if box = matchedBox then .POINTS_SCOREABLE else .NOT_SCOREABLE
  else if Box.lowerBoxes.contains box then
    .POINTS_SCOREABLE
  else if Box.lowerBoxes.all (fun c => isScored c card) then
    .POINTS_SCOREABLE
  else
    .NOT_SCOREABLE

/-- `_check_standard_scoreability` (`scorecheck.py`). -/
def checkStandardScoreability (box : Box) (r : List Nat) : Scoreability :=
  if boxInRoll box r then .POINTS_SCOREABLE else .ZERO_SCOREABLE

/-- `check_scoreability` (`scorecheck.py`). -/
def checkScoreability (box : Box) (r : List Nat) (card : Scorecard) :
    Scoreability :=
  if isScored box card then .NOT_SCOREABLE
  else if jokerRulesActive r card then checkJokerScoreability box r card
  else checkStandardScoreability box r

/-! ### Facts about `uniqueKeys`, `counterList` and `maxCount` -/

theorem mem_uniqueKeys {a : Nat} {r : List Nat} : a ∈ uniqueKeys r ↔ a ∈ r := by
  induction r with
  | nil => simp [uniqueKeys]
  | cons x xs ih =>
      by_cases hax : a = x
      · simp [uniqueKeys, hax]
      · simp [uniqueKeys, List.mem_filter, hax, ih]

theorem uniqueKeys_nodup (r : List Nat) : (uniqueKeys r).Nodup := by
  induction r with
  | nil => simp [uniqueKeys]
  | cons x xs ih =>
      refine List.nodup_cons.mpr ⟨fun hx => ?_, ih.filter _⟩
      have := (List.mem_filter.mp hx).2
      simp at this

theorem mem_counterList {p : Nat × Nat} {r : List Nat} :
    p ∈ counterList r ↔ p.1 ∈ r ∧ p.2 = r.count p.1 := by
  unfold counterList
  constructor
  · intro hp
    obtain ⟨v, hv, hvp⟩ := List.mem_map.mp hp
    cases hvp
    exact ⟨mem_uniqueKeys.mp hv, rfl⟩
  · rintro ⟨h1, h2⟩
    refine List.mem_map.mpr ⟨p.1, mem_uniqueKeys.mpr h1, ?_⟩
    cases p
    simp_all

theorem foldl_max_init_le (l : List (Nat × Nat)) (m : Nat) :
    m ≤ l.foldl (fun a p => max a p.2) m := by
  induction l generalizing m with
  | nil => exact Nat.le_refl m
  | cons q t ih => exact le_trans (le_max_left m q.2) (ih (max m q.2))

theorem foldl_max_mem_le {l : List (Nat × Nat)} {p : Nat × Nat} (hp : p ∈ l)
    (m : Nat) : p.2 ≤ l.foldl (fun a q => max a q.2) m := by
  induction l generalizing m with
  | nil => cases hp
  | cons q t ih =>
      rcases List.mem_cons.mp hp with h | h
      · subst h
        exact le_trans (le_max_right m p.2) (foldl_max_init_le t _)
      · exact ih h _

theorem foldl_max_le {l : List (Nat × Nat)} {b m : Nat} (hm : m ≤ b)
    (h : ∀ p ∈ l, p.2 ≤ b) : l.foldl (fun a q => max a q.2) m ≤ b := by
  induction l generalizing m with
  | nil => exact hm
  | cons q t ih =>
      exact ih (max_le hm (h q (List.mem_cons_self q t)))
        (fun p hp => h p (List.mem_cons_of_mem q hp))

theorem foldl_max_init_or_mem (l : List (Nat × Nat)) (m : Nat) :
    l.foldl (fun a q => max a q.2) m = m ∨
      ∃ p ∈ l, l.foldl (fun a q => max a q.2) m = p.2 := by
  induction l generalizing m with
  | nil => exact Or.inl rfl
  | cons q t ih =>
      rcases ih (max m q.2) with h | ⟨p, hp, h⟩
      · rcases max_choice m q.2 with hm | hm
        · exact Or.inl (by rw [List.foldl_cons, h, hm])
        · exact Or.inr ⟨q, List.mem_cons_self q t, by rw [List.foldl_cons, h, hm]⟩
      · exact Or.inr ⟨p, List.mem_cons_of_mem q hp, h⟩

theorem count_le_maxCount {v : Nat} {r : List Nat} (hv : v ∈ r) :
    r.count v ≤ maxCount r := by
  have h : ((v, r.count v) : Nat × Nat) ∈ counterList r :=
    mem_counterList.mpr ⟨hv, rfl⟩
  exact foldl_max_mem_le h 0

theorem maxCount_le_length (r : List Nat) : maxCount r ≤ r.length :=
  foldl_max_le (Nat.zero_le _)
    (fun p hp => (mem_counterList.mp hp).2 ▸ List.count_le_length p.1 r)

theorem maxCount_attained {r : List Nat} (h : 0 < maxCount r) :
    ∃ v ∈ r, maxCount r = r.count v := by
  rcases foldl_max_init_or_mem (counterList r) 0 with h0 | ⟨p, hp, hmax⟩
  · exact absurd (h.trans_le (le_of_eq h0)) (lt_irrefl 0)
  · obtain ⟨h1, h2⟩ := mem_counterList.mp hp
    have hm : maxCount r = p.2 := hmax
    exact ⟨p.1, h1, hm.trans h2⟩

theorem maxCount_ge_iff {k : Nat} (hk : 0 < k) (r : List Nat) :
    k ≤ maxCount r ↔ ∃ v ∈ r, k ≤ r.count v := by
  constructor
  · intro h
    obtain ⟨v, hv, heq⟩ := maxCount_attained (lt_of_lt_of_le hk h)
    exact ⟨v, hv, heq ▸ h⟩
  · rintro ⟨v, hv, h⟩
    exact le_trans h (count_le_maxCount hv)

theorem maxCount_eq_five {r : List Nat} (hlen : r.length = 5) :
    maxCount r = 5 ↔ ∃ v ∈ r, ∀ x ∈ r, x = v := by
  constructor
  · intro h
    obtain ⟨v, hv, heq⟩ := maxCount_attained (h ▸ (by norm_num : (0 : Nat) < 5))
    refine ⟨v, hv, fun x hx => ?_⟩
    have hcv : r.count v = r.length := by rw [← heq, h, hlen]
    exact (List.count_eq_length.mp hcv x hx).symm
  · rintro ⟨v, hv, hall⟩
    have hcount : r.count v = r.length :=
      List.count_eq_length.mpr (fun b hb => (hall b hb).symm)
    have h1 : 5 ≤ maxCount r := by
      have hle := count_le_maxCount hv
      rw [hcount, hlen] at hle
      exact hle
    have h2 := maxCount_le_length r
    rw [hlen] at h2
    exact le_antisymm h2 h1

theorem nodup_all_eq {l : List Nat} {v : Nat} (hn : l.Nodup)
    (hall : ∀ x ∈ l, x = v) (hne : l ≠ []) : l = [v] := by
  match l with
  | [] => exact absurd rfl hne
  | [a] => rw [hall a (List.mem_singleton_self a)]
  | a :: b :: t =>
      have ha : a = v := hall a (by simp)
      have hb : b = v := hall b (by simp)
      rw [List.nodup_cons] at hn
      exact absurd (by simp [ha, hb]) hn.1

theorem uniqueKeys_eq_singleton {r : List Nat} {v : Nat} :
    uniqueKeys r = [v] ↔ r ≠ [] ∧ ∀ x ∈ r, x = v := by
  constructor
  · intro h
    constructor
    · rintro rfl
      simp [uniqueKeys] at h
    · intro x hx
      have := mem_uniqueKeys.mpr hx
      rw [h] at this
      simpa using this
  · rintro ⟨hne, hall⟩
    refine nodup_all_eq (uniqueKeys_nodup r) (fun x hx => hall x (mem_uniqueKeys.mp hx)) ?_
    match r, hne with
    | a :: t, _ => simp [uniqueKeys]

/-! ### The claims' combination predicates, written from the spec's words -/

/-- Spec: three-of-a-kind requires at least 3 matching dice. -/
def specThreeOfAKind (r : List Nat) : Prop := ∃ v ∈ r, 3 ≤ r.count v

/-- Spec: four-of-a-kind requires at least 4 matching dice. -/
def specFourOfAKind (r : List Nat) : Prop := ∃ v ∈ r, 4 ≤ r.count v

/-- Spec: the wildcard requires all 5 dice equal. -/
def specFiveOfAKind (r : List Nat) : Prop := ∃ v ∈ r, ∀ x ∈ r, x = v

instance (r : List Nat) : Decidable (specFiveOfAKind r) := by
  unfold specFiveOfAKind
  infer_instance

/-- Spec: full house requires the multiset of value-counts to be exactly
`{2, 3}`, or a five-of-a-kind. -/
def specFullHouse (r : List Nat) : Prop :=
  (((counterList r).map (fun p => p.2) : List Nat) : Multiset Nat) = {2, 3} ∨
    specFiveOfAKind r

/-- Spec: small straight requires one of the 4-length runs to be a subset of
the roll. -/
def specSmallStraight (r : List Nat) : Prop :=
  ∃ s ∈ [[1, 2, 3, 4], [2, 3, 4, 5], [3, 4, 5, 6]], ∀ n ∈ s, n ∈ r

/-- Spec: large straight requires the sorted roll to be exactly a 5-length
run. -/
def specLargeStraight (r : List Nat) : Prop :=
  sortedNumbers r = [1, 2, 3, 4, 5] ∨ sortedNumbers r = [2, 3, 4, 5, 6]

/-- The static combination predicate of each box, as stated by the claims:
upper boxes and the catch-all box are always satisfiable. -/
def specCombination (box : Box) (r : List Nat) : Prop :=
  match box with
  | .THREE_OF_A_KIND => specThreeOfAKind r
  | .FOUR_OF_A_KIND => specFourOfAKind r
  | .FULL_HOUSE => specFullHouse r
  | .SMALL_STRAIGHT => specSmallStraight r
  | .LARGE_STRAIGHT => specLargeStraight r
  | .YAHTZEE => specFiveOfAKind r
  | _ => True

instance (box : Box) (r : List Nat) : Decidable (specCombination box r) := by
  cases box <;> (unfold specCombination) <;>
    first
      | exact inferInstanceAs (Decidable True)
      | (unfold specThreeOfAKind specFourOfAKind specFullHouse specFiveOfAKind
          specSmallStraight specLargeStraight; infer_instance)

/-! ### The code's combination tests agree with the spec's predicates -/

theorem sortAsc_perm (l : List Nat) : List.Perm (sortAsc l) l :=
  List.perm_insertionSort _ l

theorem sortAsc_sorted (l : List Nat) : List.Sorted (· ≤ ·) (sortAsc l) :=
  List.sorted_insertionSort _ l

theorem sortAsc_eq_iff_perm {l t : List Nat}
    (htgt : List.Sorted (· ≤ ·) t) : sortAsc l = t ↔ List.Perm l t := by
  constructor
  · intro h
    exact (sortAsc_perm l).symm.trans (h ▸ List.Perm.refl _)
  · intro h
    exact List.eq_of_perm_of_sorted ((sortAsc_perm l).trans h) (sortAsc_sorted l) htgt

theorem sortedCounts_pair_iff (r : List Nat) :
    sortedCounts r = [2, 3] ↔
      (((counterList r).map (fun p => p.2) : List Nat) : Multiset Nat) = {2, 3} := by
  have h := sortAsc_eq_iff_perm (l := (counterList r).map (fun p => p.2))
    (t := [2, 3]) (by norm_num [List.Sorted])
  rw [show sortedCounts r = sortAsc ((counterList r).map (fun p => p.2)) from rfl, h]
  exact (Multiset.coe_eq_coe).symm

theorem sortedCounts_single_iff {r : List Nat} (hlen : r.length = 5) :
    sortedCounts r = [5] ↔ specFiveOfAKind r := by
  have h := sortAsc_eq_iff_perm (l := (counterList r).map (fun p => p.2))
    (t := [5]) (by norm_num [List.Sorted])
  rw [show sortedCounts r = sortAsc ((counterList r).map (fun p => p.2)) from rfl, h,
    List.perm_singleton]
  have hcs : (counterList r).map (fun p => p.2) =
      (uniqueKeys r).map (fun v => r.count v) := by
    unfold counterList
    rw [List.map_map]
    rfl
  rw [hcs]
  constructor
  · intro h5
    cases huk : uniqueKeys r with
    | nil => rw [huk] at h5; simp at h5
    | cons v t =>
        rw [huk] at h5
        simp only [List.map_cons, List.cons.injEq] at h5
        have ht : t = [] := by
          cases t with
          | nil => rfl
          | cons w s => simp at h5
        subst ht
        have hsing : uniqueKeys r = [v] := huk
        have hall := uniqueKeys_eq_singleton.mp hsing
        have hv : v ∈ r :=
          mem_uniqueKeys.mp (by rw [hsing]; exact List.mem_singleton_self v)
        exact ⟨v, hv, hall.2⟩
  · rintro ⟨v, hv, hall⟩
    have huk : uniqueKeys r = [v] :=
      uniqueKeys_eq_singleton.mpr ⟨List.ne_nil_of_mem hv, hall⟩
    have hcount : r.count v = r.length :=
      List.count_eq_length.mpr (fun b hb => (hall b hb).symm)
    rw [huk]
    simp [hcount, hlen]

theorem boxInRoll_iff_spec (box : Box) (r : List Nat) (hlen : r.length = 5) :
    boxInRoll box r = true ↔ specCombination box r := by
  cases box
  case THREE_OF_A_KIND =>
    simp only [boxInRoll, specCombination, Box.sectionOf]
    rw [if_neg (by simp)]
    simp only [decide_eq_true_eq]
    exact maxCount_ge_iff (by norm_num) r
  case FOUR_OF_A_KIND =>
    simp only [boxInRoll, specCombination, Box.sectionOf]
    rw [if_neg (by simp)]
    simp only [decide_eq_true_eq]
    exact maxCount_ge_iff (by norm_num) r
  case FULL_HOUSE =>
    simp only [boxInRoll, specCombination, Box.sectionOf]
    rw [if_neg (by simp)]
    simp only [decide_eq_true_eq]
    unfold specFullHouse
    exact or_congr (sortedCounts_pair_iff r) (sortedCounts_single_iff hlen)
  case SMALL_STRAIGHT =>
    simp only [boxInRoll, specCombination, Box.sectionOf]
    rw [if_neg (by simp)]
    unfold specSmallStraight
    simp
  case LARGE_STRAIGHT =>
    simp only [boxInRoll, specCombination, Box.sectionOf]
    rw [if_neg (by simp)]
    unfold specLargeStraight
    simp
  case YAHTZEE =>
    simp only [boxInRoll, specCombination, Box.sectionOf]
    rw [if_neg (by simp)]
    simp only [decide_eq_true_eq]
    exact maxCount_eq_five hlen
  all_goals simp [boxInRoll, specCombination, Box.sectionOf]

/-- C1: for every box, valid roll, and scorecard with the box unfilled and the
joker rule inactive, classification is `POINTS_SCOREABLE` exactly when the
roll satisfies the box's combination predicate (three/four-of-a-kind: at least
3/4 equal dice; full house: counts multiset `{2,3}` or five-of-a-kind;
small/large straight: a 4-run subset / the sorted roll a 5-run; wildcard: all
5 dice equal; upper boxes and the catch-all always), and is `ZERO_SCOREABLE`
otherwise. -/
theorem standard_classification_agrees (box : Box) (r : List Nat)
    (card : Scorecard) (hv : ValidRoll r) (hun : card.boxScores box = none)
    (hj : jokerRulesActive r card = false) :
    (checkScoreability box r card = Scoreability.POINTS_SCOREABLE ↔
      specCombination box r) ∧
    (checkScoreability box r card = Scoreability.ZERO_SCOREABLE ↔
      ¬ specCombination box r) := by
  have hs : isScored box card = false := by simp [isScored, hun]
  have hred : checkScoreability box r card = checkStandardScoreability box r := by
    simp [checkScoreability, hs, hj]
  rw [hred]
  have hiff := boxInRoll_iff_spec box r hv.1
  unfold checkStandardScoreability
  by_cases hb : boxInRoll box r = true
  · rw [if_pos hb]
    simp [hiff.mp hb]
  · have hb' : boxInRoll box r = false := by simpa using hb
    rw [hb'] at hiff ⊢
    simp only [if_neg (by simp : ¬ (false = true))]
    constructor
    · simp only [show (Scoreability.ZERO_SCOREABLE = Scoreability.POINTS_SCOREABLE) ↔
        False by simp]
      simp [← hiff]
    · simp [← hiff]

/-- Witness for C1 at a concrete input: a full house on a fresh scorecard. -/
theorem standard_classification_agrees_witness :
    ValidRoll [2, 2, 3, 3, 3] ∧
    Scorecard.empty.boxScores Box.FULL_HOUSE = none ∧
    jokerRulesActive [2, 2, 3, 3, 3] Scorecard.empty = false ∧
    ((checkScoreability Box.FULL_HOUSE [2, 2, 3, 3, 3] Scorecard.empty =
        Scoreability.POINTS_SCOREABLE ↔
        specCombination Box.FULL_HOUSE [2, 2, 3, 3, 3]) ∧
     (checkScoreability Box.FULL_HOUSE [2, 2, 3, 3, 3] Scorecard.empty =
        Scoreability.ZERO_SCOREABLE ↔
        ¬ specCombination Box.FULL_HOUSE [2, 2, 3, 3, 3])) :=
  ⟨by decide, rfl, by decide,
    standard_classification_agrees Box.FULL_HOUSE [2, 2, 3, 3, 3]
      Scorecard.empty (by decide) rfl (by decide)⟩

/-! ### The joker rule (C2, C10) -/

theorem mem_lowerBoxes {box : Box} :
    box ∈ Box.lowerBoxes ↔ box.sectionOf = Section.LOWER := by
  cases box <;> decide

theorem lowerBoxes_contains (box : Box) :
    Box.lowerBoxes.contains box = decide (box.sectionOf = Section.LOWER) := by
  cases box <;> rfl

/-- C2: for every five-of-a-kind roll (all dice showing `v`) and scorecard
with the wildcard filled, writing `matched` for the upper box of face `v`:
if `matched` is unfilled only `matched` is points-scoreable and every other
box is ineligible; if `matched` is filled, every unfilled lower box is
points-scoreable, every unfilled upper box is ineligible while some lower box
is unfilled, and points-scoreable once all lower boxes are filled. -/
theorem joker_classification (r : List Nat) (card : Scorecard) (v : Nat)
    (hlen : r.length = 5) (hall : ∀ x ∈ r, x = v)
    (hyz : card.boxScores Box.YAHTZEE ≠ none) :
    (card.boxScores (Box.fromScoringNumber v) = none →
       (checkScoreability (Box.fromScoringNumber v) r card =
          Scoreability.POINTS_SCOREABLE ∧
        ∀ box : Box, box ≠ Box.fromScoringNumber v →
          checkScoreability box r card = Scoreability.NOT_SCOREABLE)) ∧
    (card.boxScores (Box.fromScoringNumber v) ≠ none →
       ∀ box : Box, card.boxScores box = none →
         ((box.sectionOf = Section.LOWER →
             checkScoreability box r card = Scoreability.POINTS_SCOREABLE) ∧
          (box.sectionOf = Section.UPPER →
             ((∃ b : Box, b.sectionOf = Section.LOWER ∧ card.boxScores b = none) →
                checkScoreability box r card = Scoreability.NOT_SCOREABLE) ∧
             ((∀ b : Box, b.sectionOf = Section.LOWER → card.boxScores b ≠ none) →
                checkScoreability box r card = Scoreability.POINTS_SCOREABLE)))) := by
  have hne : r ≠ [] := by
    intro h
    rw [h] at hlen
    exact absurd hlen (by norm_num)
  have hv : v ∈ r := by
    cases r with
    | nil => exact absurd rfl hne
    | cons x t => exact (hall x (List.mem_cons_self x t)) ▸ List.mem_cons_self x t
  have hget : r.getD 0 0 = v := by
    cases r with
    | nil => exact absurd rfl hne
    | cons x t => exact hall x (List.mem_cons_self x t)
  have hmax : maxCount r = 5 := (maxCount_eq_five hlen).mpr ⟨v, hv, hall⟩
  have hyin : boxInRoll Box.YAHTZEE r = true := by
    unfold boxInRoll
    rw [if_neg (by simp [Box.sectionOf])]
    simp [hmax]
  have hjoker : jokerRulesActive r card = true := by
    unfold jokerRulesActive
    rw [hyin]
    simp [isScored, Option.ne_none_iff_isSome.mp hyz]
  have hcheck : ∀ box : Box, card.boxScores box = none →
      checkScoreability box r card = checkJokerScoreability box r card := by
    intro box hb
    unfold checkScoreability
    rw [if_neg (by simp [isScored, hb]), if_pos hjoker]
  have hscored_not : ∀ box : Box, card.boxScores box ≠ none →
      checkScoreability box r card = Scoreability.NOT_SCOREABLE := by
    intro box hb
    unfold checkScoreability
    rw [if_pos (by simp [isScored, Option.ne_none_iff_isSome.mp hb])]
  have hjk : ∀ box : Box, checkJokerScoreability box r card =
      (if ¬ isScored (Box.fromScoringNumber v) card then
        (if box = Box.fromScoringNumber v then Scoreability.POINTS_SCOREABLE
         else Scoreability.NOT_SCOREABLE)
      else if Box.lowerBoxes.contains box then Scoreability.POINTS_SCOREABLE
      else if Box.lowerBoxes.all (fun c => isScored c card) then
        Scoreability.POINTS_SCOREABLE
      else Scoreability.NOT_SCOREABLE) := by
    intro box
    unfold checkJokerScoreability
    rw [hget]
  constructor
  · intro hmn
    have hmns : isScored (Box.fromScoringNumber v) card = false := by
      simp [isScored, hmn]
    constructor
    · rw [hcheck _ hmn, hjk]
      simp [hmns]
    · intro box hbox
      by_cases hbs : card.boxScores box = none
      · rw [hcheck _ hbs, hjk]
        simp [hmns, hbox]
      · exact hscored_not box hbs
  · intro hmf box hbox
    have hmfs : isScored (Box.fromScoringNumber v) card = true := by
      simp [isScored, Option.ne_none_iff_isSome.mp hmf]
    constructor
    · intro hlow
      rw [hcheck _ hbox, hjk]
      rw [if_neg (by simp [hmfs]), if_pos (by rw [lowerBoxes_contains]; simp [hlow])]
    · intro hup
      have hcont : Box.lowerBoxes.contains box = false := by
        rw [lowerBoxes_contains, hup]
        decide
      constructor
      · rintro ⟨b, hbl, hbn⟩
        rw [hcheck _ hbox, hjk]
        rw [if_neg (by simp [hmfs]), if_neg (by rw [hcont]; simp)]
        rw [if_neg]
        intro hA
        have := List.all_eq_true.mp hA b (mem_lowerBoxes.mpr hbl)
        simp [isScored, hbn] at this
      · intro hfull
        rw [hcheck _ hbox, hjk]
        rw [if_neg (by simp [hmfs]), if_neg (by rw [hcont]; simp)]
        rw [if_pos]
        refine List.all_eq_true.mpr (fun c hc => ?_)
        have := hfull c (mem_lowerBoxes.mp hc)
        simp [isScored, Option.ne_none_iff_isSome.mp this]

/-- A concrete scorecard: wildcard filled with 50, everything else open. -/
def jokerOpenCard : Scorecard :=
  ⟨fun b => if b = Box.YAHTZEE then some 50 else none, 0⟩

/-- Witness for C2 at a concrete input: five fours with only the wildcard
filled, so FOURS is the matched box. -/
theorem joker_classification_witness :
    [4, 4, 4, 4, 4].length = 5 ∧
    (∀ x ∈ [4, 4, 4, 4, 4], x = 4) ∧
    jokerOpenCard.boxScores Box.YAHTZEE ≠ none ∧
    ((jokerOpenCard.boxScores (Box.fromScoringNumber 4) = none →
       (checkScoreability (Box.fromScoringNumber 4) [4, 4, 4, 4, 4] jokerOpenCard =
          Scoreability.POINTS_SCOREABLE ∧
        ∀ box : Box, box ≠ Box.fromScoringNumber 4 →
          checkScoreability box [4, 4, 4, 4, 4] jokerOpenCard =
            Scoreability.NOT_SCOREABLE)) ∧
     (jokerOpenCard.boxScores (Box.fromScoringNumber 4) ≠ none →
       ∀ box : Box, jokerOpenCard.boxScores box = none →
         ((box.sectionOf = Section.LOWER →
             checkScoreability box [4, 4, 4, 4, 4] jokerOpenCard =
               Scoreability.POINTS_SCOREABLE) ∧
          (box.sectionOf = Section.UPPER →
             ((∃ b : Box, b.sectionOf = Section.LOWER ∧
                 jokerOpenCard.boxScores b = none) →
                checkScoreability box [4, 4, 4, 4, 4] jokerOpenCard =
                  Scoreability.NOT_SCOREABLE) ∧
             ((∀ b : Box, b.sectionOf = Section.LOWER →
                 jokerOpenCard.boxScores b ≠ none) →
                checkScoreability box [4, 4, 4, 4, 4] jokerOpenCard =
                  Scoreability.POINTS_SCOREABLE))))) :=
  ⟨by decide, by decide, by decide,
    joker_classification [4, 4, 4, 4, 4] jokerOpenCard 4 (by decide) (by decide)
      (by decide)⟩

/-! ### Scorecard mutation (`scorecard.py`) -/

/-- The error kinds raised by the fill operations (`exceptions.py`):
`BoxAlreadyScored` and `InvalidBoxError`. -/
inductive FillError where
  | boxAlreadyScored
  | invalidBox
deriving DecidableEq, Repr

/-- Writing one entry of the `box_scores` dict. -/
def updateBox (card : Scorecard) (box : Box) (v : Option Nat) : Scorecard :=
  ⟨fun b => if b = box then v else card.boxScores b, card.yahtzeeBonusCount⟩

/-- `Scorecard.zero_box` (`scorecard.py`): rejects an already-scored box, sets
the box to 0, then awards the Yahtzee bonus by inspecting the updated dict. -/
def zeroBox (card : Scorecard) (box : Box) (r : List Nat) :
    Except FillError Scorecard :=
  if (card.boxScores box).isSome then .error .boxAlreadyScored
  else
    let card1 := updateBox card box (some 0)
    if boxInRoll Box.YAHTZEE r ∧ card1.boxScores Box.YAHTZEE = some 50 then
      .ok ⟨card1.boxScores, card1.yahtzeeBonusCount + 1⟩
    else .ok card1

/-- `Scorecard.set_box_score` (`scorecard.py`): rejects an already-scored box
and a `NOT_SCOREABLE` classification, awards the Yahtzee bonus, then writes
`calculate_score`.  (The `box not in self.box_scores` check never fires: the
dict holds every `Box`.) -/
def setBoxScore (card : Scorecard) (box : Box) (r : List Nat) :
    Except FillError Scorecard :=
  if (card.boxScores box).isSome then .error .boxAlreadyScored
  else if checkScoreability box r card = .NOT_SCOREABLE then .error .invalidBox
  else
    let card1 :=
      if boxInRoll Box.YAHTZEE r ∧ card.boxScores Box.YAHTZEE = some 50 then
        ({ card with yahtzeeBonusCount := card.yahtzeeBonusCount + 1 } : Scorecard)
      else card
    .ok (updateBox card1 box (some (calculateScore box r)))

/-- `Scorecard.get_card_score` (`scorecard.py`). -/
def getCardScore (card : Scorecard) : Nat :=
  let upperScore := (Box.upperBoxes.map (fun b => (card.boxScores b).getD 0)).sum
  let lowerScore := (Box.lowerBoxes.map (fun b => (card.boxScores b).getD 0)).sum
  let upperBonus := if 63 ≤ upperScore then 35 else 0
  upperScore + upperBonus + lowerScore + 100 * card.yahtzeeBonusCount

/-- `Scorecard.get_unscored_boxes` (`scorecard.py`): the unfilled boxes in
enumeration order. -/
def unscoredBoxes (card : Scorecard) : List Box :=
  Box.all.filter (fun b => card.boxScores b = none)

/-! ### C3: the total-score formula -/

/-- The claim's total-score formula: sum of the filled upper scores, plus 35
exactly when that sum reaches 63, plus the filled lower scores, plus 100 per
bonus. -/
def specTotalScore (card : Scorecard) : Nat :=
  let upperSum := (Box.upperBoxes.filterMap card.boxScores).sum
  let lowerSum := (Box.lowerBoxes.filterMap card.boxScores).sum
  upperSum + (if 63 ≤ upperSum then 35 else 0) + lowerSum +
    100 * card.yahtzeeBonusCount

theorem sum_getD_eq_sum_filterMap (f : Box → Option Nat) (l : List Box) :
    (l.map (fun b => (f b).getD 0)).sum = (l.filterMap f).sum := by
  induction l with
  | nil => rfl
  | cons b t ih => cases hf : f b <;> simp [hf, ih]

/-- C3: for every scorecard state, `get_card_score` equals the sum of filled
upper scores, plus 35 exactly when that upper sum is at least 63, plus the
sum of filled lower scores, plus 100 per recorded bonus. -/
theorem card_score_formula (card : Scorecard) :
    getCardScore card = specTotalScore card := by
  unfold getCardScore specTotalScore
  rw [sum_getD_eq_sum_filterMap card.boxScores Box.upperBoxes,
    sum_getD_eq_sum_filterMap card.boxScores Box.lowerBoxes]

/-! ### C4: failure behaviour of the fill operations -/

/-- Counterexample to C4 as stated: with the joker rule active and the matched
upper box (ACES) unfilled, CHANCE classifies `NOT_SCOREABLE` (ineligible), yet
`zero_box` succeeds instead of failing — it performs no classification
check. -/
theorem zero_box_skips_classification :
    checkScoreability Box.CHANCE [1, 1, 1, 1, 1] jokerOpenCard =
      Scoreability.NOT_SCOREABLE ∧
    (zeroBox jokerOpenCard Box.CHANCE [1, 1, 1, 1, 1]).isOk = true := by
  decide

/-- C4 (amended): both operations fail with `BoxAlreadyScored` on a filled box
(and, mutation happening only after all checks, the scorecard is unchanged on
failure); `set_box_score` fails with `InvalidBoxError` exactly when
classification is `NOT_SCOREABLE` (so it also accepts `ZERO_SCOREABLE`
rolls), while `zero_box` performs no classification check and succeeds on any
unfilled box. -/
theorem fill_failure_behaviour (card : Scorecard) (box : Box) (r : List Nat) :
    ((card.boxScores box).isSome →
       zeroBox card box r = .error .boxAlreadyScored ∧
       setBoxScore card box r = .error .boxAlreadyScored) ∧
    (card.boxScores box = none →
       (zeroBox card box r).isOk = true ∧
       (setBoxScore card box r = .error .invalidBox ↔
          checkScoreability box r card = .NOT_SCOREABLE) ∧
       (checkScoreability box r card ≠ .NOT_SCOREABLE →
          (setBoxScore card box r).isOk = true)) := by
  constructor
  · intro hs
    exact ⟨by unfold zeroBox; rw [if_pos hs], by unfold setBoxScore; rw [if_pos hs]⟩
  · intro hn
    have hs : (card.boxScores box).isSome = false := by simp [hn]
    refine ⟨?_, ?_, ?_⟩
    · unfold zeroBox
      rw [if_neg (by simp [hs])]
      by_cases hb : boxInRoll Box.YAHTZEE r ∧
          (updateBox card box (some 0)).boxScores Box.YAHTZEE = some 50
      · rw [if_pos hb]; rfl
      · rw [if_neg hb]; rfl
    · unfold setBoxScore
      rw [if_neg (by simp [hs])]
      by_cases hc : checkScoreability box r card = .NOT_SCOREABLE
      · rw [if_pos hc]; simp [hc]
      · rw [if_neg hc]; simp [hc]
    · intro hc
      unfold setBoxScore
      rw [if_neg (by simp [hs]), if_neg hc]
      rfl

/-- Witness for C4 (amended): an unfilled CHANCE on a fresh card with a
non-full-house roll — `zero_box` succeeds, `set_box_score` does not raise
`InvalidBoxError`. -/
theorem fill_failure_behaviour_witness :
    (((Scorecard.empty.boxScores Box.CHANCE).isSome →
       zeroBox Scorecard.empty Box.CHANCE [1, 2, 3, 4, 5] =
         .error .boxAlreadyScored ∧
       setBoxScore Scorecard.empty Box.CHANCE [1, 2, 3, 4, 5] =
         .error .boxAlreadyScored) ∧
     (Scorecard.empty.boxScores Box.CHANCE = none →
       (zeroBox Scorecard.empty Box.CHANCE [1, 2, 3, 4, 5]).isOk = true ∧
       (setBoxScore Scorecard.empty Box.CHANCE [1, 2, 3, 4, 5] =
          .error .invalidBox ↔
          checkScoreability Box.CHANCE [1, 2, 3, 4, 5] Scorecard.empty =
            .NOT_SCOREABLE) ∧
       (checkScoreability Box.CHANCE [1, 2, 3, 4, 5] Scorecard.empty ≠
          .NOT_SCOREABLE →
          (setBoxScore Scorecard.empty Box.CHANCE [1, 2, 3, 4, 5]).isOk = true))) :=
  fill_failure_behaviour Scorecard.empty Box.CHANCE [1, 2, 3, 4, 5]

/-! ### C5: the Yahtzee bonus counter -/

/-- C5: each successful fill (for points or as zero) increments the bonus
counter by exactly 1 when the roll is a five-of-a-kind and the wildcard box
holds 50 at the time of the fill, and leaves it unchanged otherwise. -/
theorem fill_bonus_increment (card : Scorecard) (box : Box) (r : List Nat)
    (hv : ValidRoll r) :
    (∀ card', zeroBox card box r = .ok card' →
       card'.yahtzeeBonusCount = card.yahtzeeBonusCount +
         (if specFiveOfAKind r ∧ card.boxScores Box.YAHTZEE = some 50
          then 1 else 0)) ∧
    (∀ card', setBoxScore card box r = .ok card' →
       card'.yahtzeeBonusCount = card.yahtzeeBonusCount +
         (if specFiveOfAKind r ∧ card.boxScores Box.YAHTZEE = some 50
          then 1 else 0)) := by
  have hfive : boxInRoll Box.YAHTZEE r = true ↔ specFiveOfAKind r :=
    boxInRoll_iff_spec Box.YAHTZEE r hv.1
  constructor
  · intro card' h
    unfold zeroBox at h
    by_cases hs : (card.boxScores box).isSome
    · rw [if_pos hs] at h; cases h
    · rw [if_neg hs] at h
      by_cases hb : boxInRoll Box.YAHTZEE r ∧
          (updateBox card box (some 0)).boxScores Box.YAHTZEE = some 50
      · rw [if_pos hb] at h
        cases h
        have hupd : (updateBox card box (some 0)).boxScores Box.YAHTZEE = some 50 :=
          hb.2
        have hyz : card.boxScores Box.YAHTZEE = some 50 := by
          by_cases hbx : Box.YAHTZEE = box
          · rw [← hbx] at hs hupd
            simp [updateBox] at hupd
          · simpa [updateBox, hbx] using hupd
        rw [if_pos ⟨hfive.mp hb.1, hyz⟩]
        rfl
      · rw [if_neg hb] at h
        cases h
        rw [if_neg ?_]
        · rfl
        · rintro ⟨h5, hyz⟩
          refine hb ⟨hfive.mpr h5, ?_⟩
          by_cases hbx : Box.YAHTZEE = box
          · rw [← hbx] at hs
            simp [hyz] at hs
          · simpa [updateBox, hbx] using hyz
  · intro card' h
    unfold setBoxScore at h
    by_cases hs : (card.boxScores box).isSome
    · rw [if_pos hs] at h; cases h
    · rw [if_neg hs] at h
      by_cases hc : checkScoreability box r card = .NOT_SCOREABLE
      · rw [if_pos hc] at h; cases h
      · rw [if_neg hc] at h
        by_cases hb : boxInRoll Box.YAHTZEE r ∧
            card.boxScores Box.YAHTZEE = some 50
        · rw [if_pos hb] at h
          cases h
          rw [if_pos ⟨hfive.mp hb.1, hb.2⟩]
          rfl
        · rw [if_neg hb] at h
          cases h
          rw [if_neg (fun hx => hb ⟨hfive.mpr hx.1, hx.2⟩)]
          rfl

/-- Witness for C5: zeroing THREES with a five-of-a-kind of sixes after the
wildcard was filled with 50 increments the counter by exactly 1. -/
theorem fill_bonus_increment_witness :
    ValidRoll [6, 6, 6, 6, 6] ∧
    ((∀ card', zeroBox jokerOpenCard Box.THREES [6, 6, 6, 6, 6] = .ok card' →
       card'.yahtzeeBonusCount = jokerOpenCard.yahtzeeBonusCount +
         (if specFiveOfAKind [6, 6, 6, 6, 6] ∧
             jokerOpenCard.boxScores Box.YAHTZEE = some 50 then 1 else 0)) ∧
     (∀ card', setBoxScore jokerOpenCard Box.THREES [6, 6, 6, 6, 6] = .ok card' →
       card'.yahtzeeBonusCount = jokerOpenCard.yahtzeeBonusCount +
         (if specFiveOfAKind [6, 6, 6, 6, 6] ∧
             jokerOpenCard.boxScores Box.YAHTZEE = some 50 then 1 else 0))) :=
  ⟨by decide, fill_bonus_increment jokerOpenCard Box.THREES [6, 6, 6, 6, 6]
    (by decide)⟩

/-! ### C10: the joker rule never forces a zero -/

/-- C10: with the joker rule active (five-of-a-kind rolled, wildcard box
filled) classification is never `ZERO_SCOREABLE` for any box, and a
successful `set_box_score` always credits the box's full `calculate_score`
value. -/
theorem joker_never_zero (r : List Nat) (card : Scorecard) (box : Box)
    (hlen : r.length = 5) (hfive : specFiveOfAKind r)
    (hyz : card.boxScores Box.YAHTZEE ≠ none) :
    checkScoreability box r card ≠ Scoreability.ZERO_SCOREABLE ∧
    (∀ card', setBoxScore card box r = .ok card' →
       card'.boxScores box = some (calculateScore box r)) := by
  constructor
  · obtain ⟨v, hv, hall⟩ := hfive
    have hmax : maxCount r = 5 := (maxCount_eq_five hlen).mpr ⟨v, hv, hall⟩
    have hyin : boxInRoll Box.YAHTZEE r = true := by
      unfold boxInRoll
      rw [if_neg (by simp [Box.sectionOf])]
      simp [hmax]
    have hjoker : jokerRulesActive r card = true := by
      unfold jokerRulesActive
      rw [hyin]
      simp [isScored, Option.ne_none_iff_isSome.mp hyz]
    unfold checkScoreability
    by_cases hsc : isScored box card = true
    · rw [if_pos hsc]; decide
    · rw [if_neg hsc, if_pos hjoker]
      unfold checkJokerScoreability
      by_cases h1 : isScored (Box.fromScoringNumber (r.getD 0 0)) card = true
      · rw [if_neg (not_not_intro h1)]
        by_cases h2 : Box.lowerBoxes.contains box = true
        · rw [if_pos h2]; decide
        · rw [if_neg h2]
          by_cases h3 : Box.lowerBoxes.all (fun c => isScored c card) = true
          · rw [if_pos h3]; decide
          · rw [if_neg h3]; decide
      · rw [if_pos h1]
        by_cases h4 : box = Box.fromScoringNumber (r.getD 0 0)
        · rw [if_pos h4]; decide
        · rw [if_neg h4]; decide
  · intro card' h
    unfold setBoxScore at h
    by_cases hs : (card.boxScores box).isSome
    · rw [if_pos hs] at h; cases h
    · rw [if_neg hs] at h
      by_cases hc : checkScoreability box r card = .NOT_SCOREABLE
      · rw [if_pos hc] at h; cases h
      · rw [if_neg hc] at h
        cases h
        simp [updateBox]

/-- A concrete scorecard with the wildcard (50) and FOURS filled. -/
def jokerTwoFilledCard : Scorecard :=
  ⟨fun b =>
    if b = Box.YAHTZEE then some 50
    else if b = Box.FOURS then some 20
    else none, 0⟩

/-- Witness for C10: CHANCE against five fours on a card with the wildcard
and FOURS filled — scoreable for the full 20 points, never zero. -/
theorem joker_never_zero_witness :
    [4, 4, 4, 4, 4].length = 5 ∧
    specFiveOfAKind [4, 4, 4, 4, 4] ∧
    jokerTwoFilledCard.boxScores Box.YAHTZEE ≠ none ∧
    (checkScoreability Box.CHANCE [4, 4, 4, 4, 4] jokerTwoFilledCard ≠
       Scoreability.ZERO_SCOREABLE ∧
     (∀ card', setBoxScore jokerTwoFilledCard Box.CHANCE [4, 4, 4, 4, 4] =
         .ok card' →
       card'.boxScores Box.CHANCE =
         some (calculateScore Box.CHANCE [4, 4, 4, 4, 4]))) :=
  ⟨by decide, by decide, by decide,
    joker_never_zero [4, 4, 4, 4, 4] jokerTwoFilledCard Box.CHANCE (by decide)
      (by decide) (by decide)⟩

/-! ### Monte Carlo decision engine (`montecarlo.py`)

Python dicts keyed by score (`defaultdict(list)`) are embedded as association
lists in key-insertion order (`dictAdd`/`dictGet`/`dictMaxKey` mirror
`trial_scores[score].append`, `trial_scores[score]` and `max(trial_scores)`);
dicts keyed by `Box` are association lists in insertion order with
`alistLookup`.  The global random generator is injected as a function giving
the face drawn for each (trial, position); `random.choices([1..6], ...)`
always produces faces 1..6, hence the `Fin 6` codomain. -/

/-- Most-common ordering: insert into a count-descending list, before the
first entry of equal or smaller count (stability of Python's sort). -/
def insertDescByCount (x : Nat × Nat) : List (Nat × Nat) → List (Nat × Nat)
  | [] => [x]
  | y :: ys => if y.2 ≤ x.2 then x :: y :: ys else y :: insertDescByCount x ys

/-- Stable sort by count descending. -/
def sortByCountDesc : List (Nat × Nat) → List (Nat × Nat)
  | [] => []
  | a :: t => insertDescByCount a (sortByCountDesc t)

/-- `Counter(roll.numbers).most_common(...)`: (value, count) pairs by count
descending, ties in first-occurrence order. -/
def mostCommon (r : List Nat) : List (Nat × Nat) :=
  sortByCountDesc (counterList r)

/-- `RerollStrategy._upper_strategy`.  `None` is the `InvalidBoxError` raised
when the box has no `die_number`. -/
def upperStrategy (box : Box) (r : List Nat) : Option (List Nat) :=
  match box.dieNumber with
  | none => none
  | some n =>
      if 0 < r.count n then
        some ((List.range 5).filter (fun i => ¬ r.getD i 0 = n))
      else
        some [0, 1, 2, 3, 4]

/-- `RerollStrategy._kind_strategy`.  `EV = 3.5`, so `x > EV` is `7 < 2*x`
and `x < EV` is `2*x < 7` on integer faces. -/
def kindStrategy (box : Box) (r : List Nat) (mc : Nat × Nat) : List Nat :=
  let keeperTarget := if box = Box.THREE_OF_A_KIND then 3 else 4
  if mc.2 = 1 then
    let maxNumber := r.foldl max 0
    if 7 < 2 * maxNumber then
      (List.range 5).filter (fun i => ¬ r.getD i 0 = maxNumber)
    else [0, 1, 2, 3, 4]
  else if mc.2 < keeperTarget then
    (List.range 5).filter (fun i => ¬ r.getD i 0 = mc.1)
  else
    (List.range 5).filter (fun i => ¬ r.getD i 0 = mc.1 ∧ 2 * r.getD i 0 < 7)

/-- `RerollStrategy._full_house_strategy`.  `None` is the unpacking error on
`most_common(2)[1]` when fewer than two distinct values exist. -/
def fullHouseStrategy (r : List Nat) (mc : Nat × Nat) : Option (List Nat) :=
  if boxInRoll Box.FULL_HOUSE r then some []
  else if mc.2 = 2 then
    match (mostCommon r)[1]? with
    | none => none
    | some second =>
        if second.2 = 2 then
          some ((List.range 5).filter
            (fun i => ¬ (r.getD i 0 = mc.1 ∨ r.getD i 0 = second.1)))
        else
          some ((List.range 5).filter (fun i => ¬ r.getD i 0 = mc.1))
  else if 3 ≤ mc.2 ∧ mc.2 ≤ 4 then
    some ((List.range 5).filter (fun i => ¬ r.getD i 0 = mc.1))
  else
    some [0, 1, 2, 3, 4]

/-- The overlap `len(set(pattern).intersection(roll))`. -/
def patternOverlap (p : List Nat) (r : List Nat) : Nat :=
  (p.filter (fun n => n ∈ r)).length

/-- Python's `max(patterns, key=overlap)`: the first pattern of maximal
overlap. -/
def pickBestPattern (pats : List (List Nat)) (r : List Nat) : List Nat :=
  match pats with
  | [] => []
  | p :: ps =>
      ps.foldl (fun cur q =>
        if patternOverlap cur r < patternOverlap q r then q else cur) p

/-- The index-collecting loop of `_straight_strategy`: reroll a die not in
the target pattern or already seen. -/
def straightScan (best : List Nat) : Nat → List Nat → List Nat → List Nat
  | _, _, [] => []
  | idx, seen, n :: rest =>
      if n ∉ best ∨ n ∈ seen then
        idx :: straightScan best (idx + 1) (n :: seen) rest
      else
        straightScan best (idx + 1) (n :: seen) rest

/-- `RerollStrategy._straight_strategy` (only ever called for the two
straight boxes). -/
def straightStrategy (box : Box) (r : List Nat) : List Nat :=
  if boxInRoll box r then []
  else
    let pats :=
      if box = Box.SMALL_STRAIGHT then
        [[1, 2, 3, 4], [2, 3, 4, 5], [3, 4, 5, 6]]
      else [[1, 2, 3, 4, 5], [2, 3, 4, 5, 6]]
    straightScan (pickBestPattern pats r) 0 [] r

/-- `RerollStrategy._yahtzee_strategy`.  `None` is the unpacking error of
`first, second = counts.most_common(2)`. -/
def yahtzeeStrategy (r : List Nat) : Option (List Nat) :=
  if boxInRoll Box.YAHTZEE r then some []
  else
    match mostCommon r with
    | first :: second :: _ =>
        let keeperNumber :=
          if first.2 = second.2 then
            (if second.2 < first.2 then first.1 else second.2)
          else first.1
        some ((List.range 5).filter (fun i => ¬ r.getD i 0 = keeperNumber))
    | _ => none

/-- `RerollStrategy._chance_strategy`: redraw every die below 3.5. -/
def chanceStrategy (r : List Nat) : List Nat :=
  (List.range 5).filter (fun i => 2 * r.getD i 0 < 7)

/-- `RerollStrategy.choose_dice_to_reroll`.  `None` is any raised error
(`most_common(1)[0]` on an empty roll, a box without strategy). -/
def chooseDiceToReroll (box : Box) (r : List Nat) : Option (List Nat) :=
  match (mostCommon r).head? with
  | none => none
  | some mc =>
      match box with
      | .THREE_OF_A_KIND | .FOUR_OF_A_KIND => some (kindStrategy box r mc)
      | .FULL_HOUSE => fullHouseStrategy r mc
      | .SMALL_STRAIGHT | .LARGE_STRAIGHT => some (straightStrategy box r)
      | .YAHTZEE => yahtzeeStrategy r
      | .CHANCE => some (chanceStrategy r)
      | _ => upperStrategy box r

/-! #### Score calculator -/

/-- `ScoreCalculator.calculate_upper_score`: the card's current upper-section
sum. -/
def upperScoreOfCard (card : Scorecard) : Nat :=
  (Box.upperBoxes.map (fun b => (card.boxScores b).getD 0)).sum

/-- `ScoreCalculator._calculate_yahtzee_bonus`: +100 when the trial roll is a
five-of-a-kind and the wildcard box is unfilled (assist) or holds 50. -/
def calculateYahtzeeBonus (r : List Nat) (card : Scorecard) : Nat :=
  if boxInRoll Box.YAHTZEE r then
    match card.boxScores Box.YAHTZEE with
    | none => 100
    | some 50 => 100
    | some _ => 0
  else 0

/-- `ScoreCalculator._calculate_upper_bonus`: +35 when an upper box's trial
score pushes the upper sum across 63. -/
def calculateUpperBonus (box : Box) (score : Nat) (upperScore : Nat) : Nat :=
  if box.sectionOf = Section.UPPER ∧ upperScore < 63 ∧ 63 ≤ upperScore + score
  then 35 else 0

/-- `ScoreCalculator._calculate_box_score`: the fully bonused trial score,
`none` when the box is not scoreable. -/
def calcBoxScoreFull (box : Box) (r : List Nat) (card : Scorecard)
    (upperScore : Nat) : Option Nat :=
  if checkScoreability box r card = Scoreability.NOT_SCOREABLE then none
  else
    let base :=
      if checkScoreability box r card = Scoreability.POINTS_SCOREABLE then
        calculateScore box r
      else 0
    let withYahtzee := base + calculateYahtzeeBonus r card
    some (withYahtzee + calculateUpperBonus box withYahtzee upperScore)

/-- Adding a box to the score-keyed `defaultdict(list)`: append to the
existing key's list, else append a new key at the end. -/
def dictAdd (g : List (Nat × List Box)) (s : Nat) (b : Box) :
    List (Nat × List Box) :=
  match g with
  | [] => [(s, [b])]
  | (k, bs) :: rest =>
      if k = s then (k, bs ++ [b]) :: rest else (k, bs) :: dictAdd rest s b

/-- `max(trial_scores)`: the maximal key (0 on the guarded-empty dict). -/
def dictMaxKey : List (Nat × List Box) → Nat
  | [] => 0
  | (k, _) :: rest => max k (dictMaxKey rest)

/-- `trial_scores[s]`: the insertion-ordered box list of a key. -/
def dictGet (g : List (Nat × List Box)) (s : Nat) : List Box :=
  match g.find? (fun p => p.1 = s) with
  | some p => p.2
  | none => []

/-- `ScoreCalculator.calculate_trial_scores`: group the unscored boxes (in
order) by their fully bonused trial score. -/
def calculateTrialScores (unscored : List Box) (r : List Nat)
    (card : Scorecard) (upperScore : Nat) : List (Nat × List Box) :=
  unscored.foldl (fun g b =>
    match calcBoxScoreFull b r card upperScore with
    | some s => dictAdd g s b
    | none => g) []

/-! #### Simulation engine -/

/-- `Analysis` (`montecarlo.py`), float statistics as exact rationals. -/
structure Analysis where
  occurrences : Nat
  meanScore : Rat
  probability : Rat
  expectedScore : Rat
deriving DecidableEq, Repr

/-- Python dict lookup on a `Box`-keyed association list. -/
def alistLookup {α : Type} (l : List (Box × α)) (b : Box) : Option α :=
  match l with
  | [] => none
  | p :: rest => if p.1 = b then some p.2 else alistLookup rest b

/-- `SimulationEngine._prepare_keepers`: dice at positions outside the reroll
mask. -/
def prepareKeepers (r : List Nat) (mask : List Nat) : List Nat :=
  ((List.range 5).filter (fun i => i ∉ mask)).map (fun i => r.getD i 0)

/-- `SimulationEngine._update_trial_statistics`: credit an occurrence and the
high score to every box achieving this trial's maximum. -/
def updateTrialStatistics (ts : List (Nat × List Box))
    (acc : (Box → Nat) × (Box → Nat)) : (Box → Nat) × (Box → Nat) :=
  if ts.isEmpty then acc
  else
    let high := dictMaxKey ts
    (dictGet ts high).foldl (fun a b =>
      (fun x => if x = b then a.1 x + 1 else a.1 x,
       fun x => if x = b then a.2 x + high else a.2 x)) acc

/-- `SimulationEngine._build_analysis`: per-box statistics for boxes with at
least one occurrence. -/
def buildAnalysis (unscored : List Box) (occ tot : Box → Nat) (trials : Nat) :
    List (Box × Analysis) :=
  unscored.filterMap (fun b =>
    if 0 < occ b then
      some (b,
        { occurrences := occ b
          meanScore := (tot b : Rat) / (occ b : Rat)
          probability := (occ b : Rat) / (trials : Rat)
          expectedScore :=
            ((occ b : Rat) / (trials : Rat)) * ((tot b : Rat) / (occ b : Rat)) })
    else none)

/-- `SimulationEngine._analyze_no_reroll`: one deterministic evaluation
scaled to the trial count. -/
def analyzeNoReroll (unscored : List Box) (r : List Nat) (card : Scorecard)
    (trials : Nat) : List (Box × Analysis) :=
  let ts := calculateTrialScores unscored r card (upperScoreOfCard card)
  let winners := if ts.isEmpty then [] else dictGet ts (dictMaxKey ts)
  buildAnalysis unscored
    (fun b => if b ∈ winners then trials else 0)
    (fun b => if b ∈ winners then dictMaxKey ts * trials else 0) trials

/-- `SimulationEngine.simulate_rolls`, with the random generator injected:
`draw t j` is the face index drawn for position `j` of trial `t`. -/
def simulateRolls (card : Scorecard) (r : List Nat) (mask : List Nat)
    (trials : Nat) (draw : Nat → Nat → Fin 6) : List (Box × Analysis) :=
  let keepers := prepareKeepers r mask
  let keepersCount := keepers.length
  let unscored := unscoredBoxes card
  let upperScore := upperScoreOfCard card
  if keepersCount = 5 then analyzeNoReroll unscored r card trials
  else
    let acc := (List.range trials).foldl (fun acc t =>
      let sroll := keepers ++
        (List.range (5 - keepersCount)).map (fun j => ((draw t j).val) + 1)
      updateTrialStatistics (calculateTrialScores unscored sroll card upperScore)
        acc)
      (fun _ => 0, fun _ => 0)
    buildAnalysis unscored acc.1 acc.2 trials

/-! #### Turn manager -/

/-- `TurnDecision` (`montecarlo.py`). -/
structure TurnDecision where
  bestBox : Box
  shouldEndTurn : Bool
  diceToReroll : List Nat
deriving DecidableEq, Repr

/-- `TurnManager._make_final_decision`: pick the first box of the highest
realized trial score, falling back to the first unscored box; `none` is the
index error on an empty unscored list. -/
def makeFinalDecision (unscored : List Box) (r : List Nat) (card : Scorecard) :
    Option TurnDecision :=
  let ts := calculateTrialScores unscored r card (upperScoreOfCard card)
  if ts.isEmpty then
    match unscored with
    | [] => none
    | b :: _ => some ⟨b, true, []⟩
  else
    match dictGet ts (dictMaxKey ts) with
    | [] => none
    | b :: _ => some ⟨b, true, []⟩

/-- Python's `max(expected_results, key=expected_score)`: the first entry of
maximal expected score. -/
def maxByExpected (l : List (Box × Rat)) : Option (Box × Rat) :=
  match l with
  | [] => none
  | x :: xs => some (xs.foldl (fun cur y => if cur.2 < y.2 then y else cur) x)

/-- `TurnManager._calculate_reroll_strategies`: the box-keyed dict
comprehension, every raised error propagating. -/
def buildStrategies (r : List Nat) : List Box → Option (List (Box × List Nat))
  | [] => some []
  | b :: t =>
      match chooseDiceToReroll b r with
      | none => none
      | some m =>
          match buildStrategies r t with
          | none => none
          | some rest => some ((b, m) :: rest)

/-- `TurnManager.make_turn_decision`: final-roll logic on roll 3, otherwise
per-box reroll strategies, simulation, and the best expected outcome
(`trials` is the engine's trial count, `draw b` the generator state consumed
by box `b`'s simulation). -/
def makeTurnDecision (card : Scorecard) (r : List Nat) (rollCount : Nat)
    (trials : Nat) (draw : Box → Nat → Nat → Fin 6) : Option TurnDecision :=
  let unscored := unscoredBoxes card
  if rollCount = 3 then makeFinalDecision unscored r card
  else
    match buildStrategies r unscored with
    | none => none
    | some strategies =>
        let expectedResults := strategies.filterMap (fun p =>
          match alistLookup (simulateRolls card r p.2 trials (draw p.1)) p.1 with
          | some a => some (p.1, a.expectedScore)
          | none => none)
        match maxByExpected expectedResults with
        | none => makeFinalDecision unscored r card
        | some best =>
            match alistLookup strategies best.1 with
            | none => none
            | some mask => some ⟨best.1, mask.isEmpty, mask⟩

/-! ### C9: the wildcard reroll selector -/

/-- Modelled from the spec: the wildcard reroll rule keeps every die showing
the most frequent value (tie-break: the larger face value) and redraws the
rest; an existing five-of-a-kind keeps all dice. -/
def specYahtzeeReroll (r : List Nat) : List Nat :=
  if specFiveOfAKind r then []
  else
    let keeper :=
      ((uniqueKeys r).filter (fun v => r.count v = maxCount r)).foldl max 0
    (List.range 5).filter (fun i => ¬ r.getD i 0 = keeper)

/-- C9 (code bug): on `[5, 5, 3, 3, 2]` — two pairs tied for most frequent —
the source's tie branch computes `second[1]` (the count 2) instead of a face
value, keeps the single die equal to 2 and rerolls the pair positions
`[0, 1, 2, 3]`, while its own comment and the spec demand keeping the
larger-face pair (the fives), i.e. rerolling `[2, 3, 4]`. -/
theorem yahtzee_strategy_tie_bug :
    chooseDiceToReroll Box.YAHTZEE [5, 5, 3, 3, 2] = some [0, 1, 2, 3] ∧
    specYahtzeeReroll [5, 5, 3, 3, 2] = [2, 3, 4] ∧
    chooseDiceToReroll Box.YAHTZEE [5, 5, 3, 3, 2] ≠
      some (specYahtzeeReroll [5, 5, 3, 3, 2]) := by
  decide

/-! ### C8 counterexample: an ineligible advisory category -/

/-- A mid-game scorecard: wildcard already scored 50, the rest of the upper
section filled past the bonus threshold, ACES and CHANCE still open. -/
def midGameCard : Scorecard :=
  ⟨fun b => match b with
    | Box.ACES => none
    | Box.CHANCE => none
    | Box.YAHTZEE => some 50
    | Box.TWOS => some 10
    | Box.THREES => some 15
    | Box.FOURS => some 16
    | Box.FIVES => some 20
    | Box.SIXES => some 30
    | _ => some 0, 0⟩

/-- A random generator that always draws face 6. -/
def allSixesDraw : Box → Nat → Nat → Fin 6 := fun _ _ _ => ⟨5, by norm_num⟩

/-- Counterexample to C8 as stated: on roll 1 of `[1,1,1,1,1]` against
`midGameCard` the joker rule makes every box except ACES ineligible, yet the
decision (1 trial, all rerolls drawing sixes) returns CHANCE — whose
classification against the given roll and scorecard is ineligible — because
CHANCE's simulated expected score (130) beats ACES' (105). -/
theorem turn_decision_ineligible_counterexample :
    makeTurnDecision midGameCard [1, 1, 1, 1, 1] 1 1 allSixesDraw =
      some ⟨Box.CHANCE, false, [0, 1, 2, 3, 4]⟩ ∧
    checkScoreability Box.CHANCE [1, 1, 1, 1, 1] midGameCard =
      Scoreability.NOT_SCOREABLE := by
  decide

/-! ### Lemma kit for the simulation and turn-decision proofs -/

theorem le_foldl_natMax_init (l : List Nat) (m : Nat) : m ≤ l.foldl max m := by
  induction l generalizing m with
  | nil => exact Nat.le_refl m
  | cons x t ih => exact le_trans (le_max_left m x) (ih (max m x))

theorem le_foldl_natMax_mem {l : List Nat} {x : Nat} (hx : x ∈ l) (m : Nat) :
    x ≤ l.foldl max m := by
  induction l generalizing m with
  | nil => cases hx
  | cons y t ih =>
      rcases List.mem_cons.mp hx with h | h
      · subst h
        exact le_trans (le_max_right m x) (le_foldl_natMax_init t _)
      · exact ih h _

theorem foldl_natMax_init_or_mem (l : List Nat) (m : Nat) :
    l.foldl max m = m ∨ ∃ x ∈ l, l.foldl max m = x := by
  induction l generalizing m with
  | nil => exact Or.inl rfl
  | cons y t ih =>
      rcases ih (max m y) with h | ⟨x, hx, h⟩
      · rcases max_choice m y with hm | hm
        · exact Or.inl (by rw [List.foldl_cons, h, hm])
        · exact Or.inr ⟨y, List.mem_cons_self y t, by rw [List.foldl_cons, h, hm]⟩
      · exact Or.inr ⟨x, List.mem_cons_of_mem y hx, h⟩

theorem foldl_natMax_attained {l : List Nat} (hl : l ≠ []) :
    ∃ x ∈ l, l.foldl max 0 = x := by
  rcases foldl_natMax_init_or_mem l 0 with h0 | h
  · match l, hl with
    | y :: t, _ =>
        refine ⟨y, List.mem_cons_self y t, ?_⟩
        have hy := le_foldl_natMax_mem (List.mem_cons_self y t) 0
        omega
  · exact h

theorem alistLookup_mem {α : Type} {l : List (Box × α)} {b : Box} {a : α}
    (h : alistLookup l b = some a) : (b, a) ∈ l := by
  induction l with
  | nil => cases h
  | cons p rest ih =>
      unfold alistLookup at h
      by_cases hp : p.1 = b
      · rw [if_pos hp] at h
        injection h with h2
        subst h2
        obtain ⟨p1, p2⟩ := p
        cases hp
        exact List.mem_cons_self _ _
      · rw [if_neg hp] at h
        exact List.mem_cons_of_mem p (ih h)

theorem alistLookup_of_mem_nodup {α : Type} {l : List (Box × α)} {b : Box}
    {a : α} (hn : (l.map Prod.fst).Nodup) (h : (b, a) ∈ l) :
    alistLookup l b = some a := by
  induction l with
  | nil => cases h
  | cons p rest ih =>
      rw [List.map_cons, List.nodup_cons] at hn
      rcases List.mem_cons.mp h with h1 | h1
      · subst h1
        unfold alistLookup
        rw [if_pos rfl]
      · unfold alistLookup
        by_cases hp : p.1 = b
        · exact absurd (hp ▸ (List.mem_map.mpr ⟨(b, a), h1, rfl⟩)) hn.1
        · rw [if_neg hp]
          exact ih hn.2 h1

theorem dictAdd_ne_nil (g : List (Nat × List Box)) (s : Nat) (b : Box) :
    dictAdd g s b ≠ [] := by
  match g with
  | [] => simp [dictAdd]
  | (k, bs) :: rest =>
      unfold dictAdd
      by_cases hk : k = s <;> simp [hk]

theorem dictGet_cons (k : Nat) (bs : List Box) (rest : List (Nat × List Box))
    (s : Nat) :
    dictGet ((k, bs) :: rest) s = if k = s then bs else dictGet rest s := by
  by_cases hk : k = s
  · subst hk
    simp [dictGet, List.find?]
  · simp [dictGet, List.find?, hk]

theorem dictGet_dictAdd (g : List (Nat × List Box)) (s : Nat) (b : Box)
    (s' : Nat) : dictGet (dictAdd g s b) s' =
      if s' = s then dictGet g s' ++ [b] else dictGet g s' := by
  induction g with
  | nil =>
      rw [show dictAdd [] s b = [(s, [b])] from rfl, dictGet_cons]
      by_cases h : s' = s
      · simp [h, dictGet]
      · have h' : ¬ s = s' := fun hc => h hc.symm
        simp [h, h', dictGet]
  | cons p rest ih =>
      obtain ⟨k, bs⟩ := p
      unfold dictAdd
      by_cases hk : k = s
      · rw [if_pos hk]
        rw [dictGet_cons, dictGet_cons]
        subst hk
        by_cases h : k = s'
        · simp [h]
        · have h' : ¬ s' = k := fun hc => h hc.symm
          simp [h, h']
      · rw [if_neg hk]
        rw [dictGet_cons, ih, dictGet_cons]
        by_cases h1 : k = s'
        · by_cases h2 : s' = s
          · exact absurd (h1.trans h2) hk
          · simp [h1, h2]
        · by_cases h2 : s' = s
          · simp [h1, h2, hk]
          · simp [h1, h2]

theorem dictMaxKey_dictAdd (g : List (Nat × List Box)) (s : Nat) (b : Box) :
    dictMaxKey (dictAdd g s b) = max (dictMaxKey g) s := by
  induction g with
  | nil => simp [dictAdd, dictMaxKey, Nat.max_comm]
  | cons p rest ih =>
      obtain ⟨k, bs⟩ := p
      unfold dictAdd
      by_cases hk : k = s
      · subst hk
        simp [dictMaxKey]
      · rw [if_neg hk]
        show max k (dictMaxKey (dictAdd rest s b)) = max (max k (dictMaxKey rest)) s
        rw [ih]
        omega

/-- The (box, fully-bonused trial score) pairs of the scoreable unscored
boxes, in enumeration order: the entries `calculate_trial_scores` inserts. -/
def scorePairs (unscored : List Box) (r : List Nat) (card : Scorecard)
    (upperScore : Nat) : List (Box × Nat) :=
  unscored.filterMap (fun b =>
    (calcBoxScoreFull b r card upperScore).map (fun s => (b, s)))

theorem trialScores_foldl_eq (unscored : List Box) (r : List Nat)
    (card : Scorecard) (u : Nat) (g : List (Nat × List Box)) :
    unscored.foldl (fun g b =>
      match calcBoxScoreFull b r card u with
      | some s => dictAdd g s b
      | none => g) g =
    (scorePairs unscored r card u).foldl (fun g p => dictAdd g p.2 p.1) g := by
  induction unscored generalizing g with
  | nil => rfl
  | cons b t ih =>
      unfold scorePairs
      cases hc : calcBoxScoreFull b r card u with
      | none => simp [hc, ih, scorePairs]
      | some s => simp [hc, ih, scorePairs]

theorem calculateTrialScores_eq (unscored : List Box) (r : List Nat)
    (card : Scorecard) (u : Nat) :
    calculateTrialScores unscored r card u =
      (scorePairs unscored r card u).foldl (fun g p => dictAdd g p.2 p.1) [] :=
  trialScores_foldl_eq unscored r card u []

theorem dictGet_foldl_pairs (ps : List (Box × Nat)) (g : List (Nat × List Box))
    (s : Nat) : dictGet (ps.foldl (fun g p => dictAdd g p.2 p.1) g) s =
      dictGet g s ++ (ps.filter (fun p => p.2 = s)).map (fun p => p.1) := by
  induction ps generalizing g with
  | nil => simp
  | cons p t ih =>
      rw [List.foldl_cons, ih, dictGet_dictAdd]
      by_cases hs : s = p.2
      · rw [if_pos hs]
        have : (p.2 = s) = True := by simp [hs.symm]
        simp [List.filter_cons, hs.symm, List.append_assoc]
      · rw [if_neg hs]
        have hne : ¬ p.2 = s := fun hc => hs hc.symm
        simp [List.filter_cons, hne]

theorem dictMaxKey_foldl_pairs (ps : List (Box × Nat))
    (g : List (Nat × List Box)) :
    dictMaxKey (ps.foldl (fun g p => dictAdd g p.2 p.1) g) =
      (ps.map (fun p => p.2)).foldl max (dictMaxKey g) := by
  induction ps generalizing g with
  | nil => rfl
  | cons p t ih => rw [List.foldl_cons, ih, dictMaxKey_dictAdd]; rfl

theorem foldl_pairs_ne_nil {ps : List (Box × Nat)} {g : List (Nat × List Box)}
    (h : g ≠ [] ∨ ps ≠ []) :
    ps.foldl (fun g p => dictAdd g p.2 p.1) g ≠ [] := by
  induction ps generalizing g with
  | nil =>
      rcases h with h | h
      · exact h
      · exact absurd rfl h
  | cons p t ih =>
      rw [List.foldl_cons]
      exact ih (Or.inl (dictAdd_ne_nil g p.2 p.1))

theorem filter_head?_eq_find? {α : Type} (p : α → Bool) (l : List α) :
    (l.filter p).head? = l.find? p := by
  induction l with
  | nil => rfl
  | cons x t ih =>
      by_cases hx : p x = true
      · simp [List.filter_cons, List.find?, hx]
      · simp [List.filter_cons, List.find?, hx, ih]

theorem calcBoxScoreFull_eq_none_iff (box : Box) (r : List Nat)
    (card : Scorecard) (u : Nat) : calcBoxScoreFull box r card u = none ↔
      checkScoreability box r card = Scoreability.NOT_SCOREABLE := by
  unfold calcBoxScoreFull
  by_cases h : checkScoreability box r card = Scoreability.NOT_SCOREABLE
  · simp [h]
  · simp [h]

theorem mem_scorePairs {unscored : List Box} {r : List Nat} {card : Scorecard}
    {u : Nat} {p : Box × Nat} :
    p ∈ scorePairs unscored r card u ↔
      p.1 ∈ unscored ∧ calcBoxScoreFull p.1 r card u = some p.2 := by
  unfold scorePairs
  rw [List.mem_filterMap]
  constructor
  · rintro ⟨b, hb, hmap⟩
    cases hc : calcBoxScoreFull b r card u with
    | none => rw [hc] at hmap; cases hmap
    | some s =>
        rw [hc] at hmap
        cases hmap
        exact ⟨hb, hc⟩
  · rintro ⟨hb, hc⟩
    exact ⟨p.1, hb, by rw [hc]; cases p; rfl⟩

theorem mem_trialWinners_get {unscored : List Box} {r : List Nat}
    {card : Scorecard} {u : Nat} {box : Box}
    (h : box ∈ dictGet (calculateTrialScores unscored r card u)
          (dictMaxKey (calculateTrialScores unscored r card u))) :
    box ∈ unscored ∧
    calcBoxScoreFull box r card u =
      some (dictMaxKey (calculateTrialScores unscored r card u)) := by
  rw [calculateTrialScores_eq] at h ⊢
  rw [dictGet_foldl_pairs] at h
  rw [show dictGet [] (dictMaxKey ((scorePairs unscored r card u).foldl
      (fun g p => dictAdd g p.2 p.1) [])) = [] from rfl, List.nil_append] at h
  obtain ⟨p, hp, hpe⟩ := List.mem_map.mp h
  have hfil := List.mem_filter.mp hp
  have hmem := mem_scorePairs.mp hfil.1
  have hp2 : p.2 = dictMaxKey ((scorePairs unscored r card u).foldl
      (fun g p => dictAdd g p.2 p.1) []) := by
    simpa using hfil.2
  subst hpe
  exact ⟨hmem.1, hp2 ▸ hmem.2⟩

/-- The boxes `_analyze_no_reroll` credits: those achieving the single
evaluation's maximum. -/
def trialWinners (unscored : List Box) (r : List Nat) (card : Scorecard) :
    List Box :=
  let ts := calculateTrialScores unscored r card (upperScoreOfCard card)
  if ts.isEmpty then [] else dictGet ts (dictMaxKey ts)

theorem analyzeNoReroll_def (unscored : List Box) (r : List Nat)
    (card : Scorecard) (trials : Nat) :
    analyzeNoReroll unscored r card trials =
      buildAnalysis unscored
        (fun b => if b ∈ trialWinners unscored r card then trials else 0)
        (fun b => if b ∈ trialWinners unscored r card then
            dictMaxKey (calculateTrialScores unscored r card
              (upperScoreOfCard card)) * trials
          else 0)
        trials := rfl

theorem mem_trialWinners {unscored : List Box} {r : List Nat}
    {card : Scorecard} {box : Box}
    (h : box ∈ trialWinners unscored r card) :
    box ∈ unscored ∧
    calcBoxScoreFull box r card (upperScoreOfCard card) =
      some (dictMaxKey (calculateTrialScores unscored r card
        (upperScoreOfCard card))) := by
  unfold trialWinners at h
  by_cases he : (calculateTrialScores unscored r card
      (upperScoreOfCard card)).isEmpty
  · rw [if_pos he] at h
    cases h
  · rw [if_neg he] at h
    exact mem_trialWinners_get h

theorem analyzeNoReroll_spec {unscored : List Box} {r : List Nat}
    {card : Scorecard} {trials : Nat} {box : Box} {a : Analysis}
    (h : alistLookup (analyzeNoReroll unscored r card trials) box = some a) :
    0 < trials ∧ a.occurrences = trials ∧ a.probability = 1 ∧
    ∃ s : Nat, calcBoxScoreFull box r card (upperScoreOfCard card) = some s ∧
      a.meanScore = (s : Rat) ∧ a.expectedScore = (s : Rat) := by
  have hmem := alistLookup_mem h
  rw [analyzeNoReroll_def] at hmem
  unfold buildAnalysis at hmem
  obtain ⟨b, hb, hbeq⟩ := List.mem_filterMap.mp hmem
  by_cases hbw : b ∈ trialWinners unscored r card
  · by_cases htr : 0 < trials
    · rw [if_pos (by simp [hbw]; omega)] at hbeq
      rw [Option.some.injEq, Prod.mk.injEq] at hbeq
      obtain ⟨hb1, hb2⟩ := hbeq
      subst hb1
      subst hb2
      have hT : ((trials : Nat) : Rat) ≠ 0 :=
        Nat.cast_ne_zero.mpr (Nat.pos_iff_ne_zero.mp htr)
      obtain ⟨-, hcalc⟩ := mem_trialWinners hbw
      refine ⟨htr, by simp [hbw], by simp [hbw, div_self hT], ?_⟩
      refine ⟨_, hcalc, ?_, ?_⟩
      · simp only [hbw, if_true]
        push_cast
        rw [mul_div_assoc, div_self hT, mul_one]
      · simp only [hbw, if_true]
        rw [div_self hT, one_mul]
        push_cast
        rw [mul_div_assoc, div_self hT, mul_one]
    · rw [if_neg (by simp [hbw]; omega)] at hbeq
      cases hbeq
  · rw [if_neg (by simp [hbw])] at hbeq
    cases hbeq

theorem simulateRolls_nil_mask (card : Scorecard) (r : List Nat)
    (trials : Nat) (draw : Nat → Nat → Fin 6) :
    simulateRolls card r [] trials draw =
      analyzeNoReroll (unscoredBoxes card) r card trials := by
  unfold simulateRolls
  rw [if_pos]
  have hk : prepareKeepers r [] = (List.range 5).map (fun i => r.getD i 0) := by
    simp [prepareKeepers]
  rw [hk]
  simp

/-- C6: with an empty reroll mask (all five dice kept) the simulation
degenerates to the single deterministic evaluation: every category present in
the result has probability exactly 1 and expected (and mean) score exactly
its deterministic fully-bonused realized score, for every trial count and
every injected generator. -/
theorem empty_mask_simulation_exact (card : Scorecard) (r : List Nat)
    (trials : Nat) (draw : Nat → Nat → Fin 6) (box : Box) (a : Analysis)
    (h : alistLookup (simulateRolls card r [] trials draw) box = some a) :
    a.probability = 1 ∧
    ∃ s : Nat, calcBoxScoreFull box r card (upperScoreOfCard card) = some s ∧
      a.expectedScore = (s : Rat) ∧ a.meanScore = (s : Rat) := by
  rw [simulateRolls_nil_mask] at h
  obtain ⟨-, -, hprob, s, hcalc, hmean, hexp⟩ := analyzeNoReroll_spec h
  exact ⟨hprob, s, hcalc, hexp, hmean⟩

/-- Witness for C6: the no-reroll simulation on `midGameCard` with seven
trials reports ACES with probability 1 and expected score exactly its
realized 105. -/
theorem empty_mask_simulation_exact_witness :
    alistLookup (simulateRolls midGameCard [1, 1, 1, 1, 1] [] 7 (allSixesDraw
      Box.ACES)) Box.ACES = some ⟨7, 105, 1, 105⟩ ∧
    ((⟨7, 105, 1, 105⟩ : Analysis).probability = 1 ∧
     ∃ s : Nat, calcBoxScoreFull Box.ACES [1, 1, 1, 1, 1] midGameCard
         (upperScoreOfCard midGameCard) = some s ∧
       (⟨7, 105, 1, 105⟩ : Analysis).expectedScore = (s : Rat) ∧
       (⟨7, 105, 1, 105⟩ : Analysis).meanScore = (s : Rat)) :=
  ⟨by decide,
    empty_mask_simulation_exact midGameCard [1, 1, 1, 1, 1] 7
      (allSixesDraw Box.ACES) Box.ACES ⟨7, 105, 1, 105⟩ (by decide)⟩

/-! ### C7: the final-roll decision -/

/-- The claim's final-roll selection: among the unscored boxes the roll can
legally fill, the first (in enumeration order) achieving the maximal realized
fully-bonused score; the first unscored box when none is scoreable. -/
def specFinalChoice (unscored : List Box) (r : List Nat) (card : Scorecard) :
    Option Box :=
  match scorePairs unscored r card (upperScoreOfCard card) with
  | [] => unscored.head?
  | p :: rest =>
      ((p :: rest).find? (fun q =>
        q.2 = ((p :: rest).map (fun q => q.2)).foldl max 0)).map (fun q => q.1)

theorem specFinalChoice_empty {unscored : List Box} {r : List Nat}
    {card : Scorecard}
    (h : scorePairs unscored r card (upperScoreOfCard card) = []) :
    specFinalChoice unscored r card = unscored.head? := by
  unfold specFinalChoice
  rw [h]

theorem specFinalChoice_nonempty {unscored : List Box} {r : List Nat}
    {card : Scorecard} {p : Box × Nat} {rest : List (Box × Nat)}
    (h : scorePairs unscored r card (upperScoreOfCard card) = p :: rest) :
    specFinalChoice unscored r card =
      ((p :: rest).find? (fun q =>
        q.2 = ((p :: rest).map (fun q => q.2)).foldl max 0)).map (fun q => q.1) := by
  unfold specFinalChoice
  rw [h]

theorem makeFinalDecision_def (unscored : List Box) (r : List Nat)
    (card : Scorecard) :
    makeFinalDecision unscored r card =
      if (calculateTrialScores unscored r card (upperScoreOfCard card)).isEmpty then
        match unscored with
        | [] => none
        | b :: _ => some ⟨b, true, []⟩
      else
        match dictGet (calculateTrialScores unscored r card (upperScoreOfCard card))
            (dictMaxKey (calculateTrialScores unscored r card (upperScoreOfCard card))) with
        | [] => none
        | b :: _ => some ⟨b, true, []⟩ := rfl

theorem trialScores_isEmpty_iff (unscored : List Box) (r : List Nat)
    (card : Scorecard) (u : Nat) :
    (calculateTrialScores unscored r card u).isEmpty = true ↔
      scorePairs unscored r card u = [] := by
  rw [calculateTrialScores_eq, List.isEmpty_iff]
  constructor
  · intro h
    by_contra hps
    exact foldl_pairs_ne_nil (Or.inr hps) h
  · intro h
    rw [h]
    rfl

theorem makeFinalDecision_spec (unscored : List Box) (r : List Nat)
    (card : Scorecard) (hne : unscored ≠ []) :
    ∃ b, makeFinalDecision unscored r card = some ⟨b, true, []⟩ ∧
      specFinalChoice unscored r card = some b ∧
      (scorePairs unscored r card (upperScoreOfCard card) ≠ [] →
        ∃ s, calcBoxScoreFull b r card (upperScoreOfCard card) = some s) := by
  by_cases hp : scorePairs unscored r card (upperScoreOfCard card) = []
  · obtain ⟨b, t, rfl⟩ : ∃ b t, unscored = b :: t := by
      cases unscored with
      | nil => exact absurd rfl hne
      | cons b t => exact ⟨b, t, rfl⟩
    refine ⟨b, ?_, ?_, fun hcon => absurd hp hcon⟩
    · rw [makeFinalDecision_def,
        if_pos ((trialScores_isEmpty_iff _ _ _ _).mpr hp)]
    · rw [specFinalChoice_empty hp]
      rfl
  · obtain ⟨p, rest, hcons⟩ : ∃ p rest,
        scorePairs unscored r card (upperScoreOfCard card) = p :: rest := by
      cases hs : scorePairs unscored r card (upperScoreOfCard card) with
      | nil => exact absurd hs hp
      | cons p rest => exact ⟨p, rest, rfl⟩
    have hget : dictGet (calculateTrialScores unscored r card (upperScoreOfCard card))
        (dictMaxKey (calculateTrialScores unscored r card (upperScoreOfCard card))) =
        ((scorePairs unscored r card (upperScoreOfCard card)).filter (fun q =>
          q.2 = (((scorePairs unscored r card (upperScoreOfCard card)).map
            (fun q => q.2)).foldl max 0))).map (fun q => q.1) := by
      rw [calculateTrialScores_eq, dictGet_foldl_pairs, dictMaxKey_foldl_pairs]
      simp [dictGet, dictMaxKey]
    have hatt : ∃ x ∈ (scorePairs unscored r card (upperScoreOfCard card)).map
        (fun q => q.2),
        ((scorePairs unscored r card (upperScoreOfCard card)).map
          (fun q => q.2)).foldl max 0 = x := by
      refine foldl_natMax_attained ?_
      rw [hcons]
      simp
    obtain ⟨x, hxmem, hxeq⟩ := hatt
    obtain ⟨q, hq, hqx⟩ := List.mem_map.mp hxmem
    have hqfil : q ∈ (scorePairs unscored r card (upperScoreOfCard card)).filter
        (fun q => q.2 = (((scorePairs unscored r card
          (upperScoreOfCard card)).map (fun q => q.2)).foldl max 0)) := by
      refine List.mem_filter.mpr ⟨hq, ?_⟩
      simp [hqx, hxeq]
    have hfilne : ((scorePairs unscored r card (upperScoreOfCard card)).filter
        (fun q => q.2 = (((scorePairs unscored r card
          (upperScoreOfCard card)).map (fun q => q.2)).foldl max 0))).map
          (fun q => q.1) ≠ [] := by
      intro hcon
      rw [List.map_eq_nil_iff] at hcon
      rw [hcon] at hqfil
      cases hqfil
    obtain ⟨w, ws, hw⟩ : ∃ w ws, ((scorePairs unscored r card
        (upperScoreOfCard card)).filter (fun q =>
          q.2 = (((scorePairs unscored r card (upperScoreOfCard card)).map
            (fun q => q.2)).foldl max 0))).map (fun q => q.1) = w :: ws := by
      cases hww : ((scorePairs unscored r card (upperScoreOfCard card)).filter
          (fun q => q.2 = (((scorePairs unscored r card
            (upperScoreOfCard card)).map (fun q => q.2)).foldl max 0))).map
            (fun q => q.1) with
      | nil => exact absurd hww hfilne
      | cons w ws => exact ⟨w, ws, rfl⟩
    have hemp : (calculateTrialScores unscored r card
        (upperScoreOfCard card)).isEmpty = false := by
      rcases Bool.eq_false_or_eq_true ((calculateTrialScores unscored r card
        (upperScoreOfCard card)).isEmpty) with h | h
      · exact absurd ((trialScores_isEmpty_iff _ _ _ _).mp h) hp
      · exact h
    refine ⟨w, ?_, ?_, fun _ => ?_⟩
    · rw [makeFinalDecision_def, if_neg (by rw [hemp]; simp), hget, hw]
    · rw [specFinalChoice_nonempty hcons]
      rw [← hcons, ← filter_head?_eq_find?]
      rw [show ((scorePairs unscored r card (upperScoreOfCard card)).filter
          (fun q => q.2 = (((scorePairs unscored r card
            (upperScoreOfCard card)).map (fun q => q.2)).foldl max 0))).head?.map
            (fun q => q.1) =
          (((scorePairs unscored r card (upperScoreOfCard card)).filter
            (fun q => q.2 = (((scorePairs unscored r card
              (upperScoreOfCard card)).map (fun q => q.2)).foldl max 0))).map
              (fun q => q.1)).head? from (List.head?_map _ _).symm, hw]
      rfl
    · have hwmem : w ∈ ((scorePairs unscored r card
          (upperScoreOfCard card)).filter (fun q =>
            q.2 = (((scorePairs unscored r card (upperScoreOfCard card)).map
              (fun q => q.2)).foldl max 0))).map (fun q => q.1) := by
        rw [hw]
        exact List.mem_cons_self w ws
      obtain ⟨q', hq', hq'w⟩ := List.mem_map.mp hwmem
      have := mem_scorePairs.mp (List.mem_filter.mp hq').1
      exact ⟨q'.2, hq'w ▸ this.2⟩

/-- C7: on roll number 3 the decision always ends the turn with an empty
reroll set, and picks exactly the claim's category: the first unscored box of
maximal realized (fully bonused) score, computed without simulation,
defaulting to the first unscored box when none is scoreable — for every
trial count and injected generator. -/
theorem final_roll_decision (card : Scorecard) (r : List Nat) (trials : Nat)
    (draw : Box → Nat → Nat → Fin 6) (hne : unscoredBoxes card ≠ []) :
    ∃ d, makeTurnDecision card r 3 trials draw = some d ∧
      d.shouldEndTurn = true ∧ d.diceToReroll = [] ∧
      specFinalChoice (unscoredBoxes card) r card = some d.bestBox := by
  obtain ⟨b, hdec, hspec, -⟩ :=
    makeFinalDecision_spec (unscoredBoxes card) r card hne
  refine ⟨⟨b, true, []⟩, ?_, rfl, rfl, hspec⟩
  unfold makeTurnDecision
  rw [if_pos rfl]
  exact hdec

/-- Witness for C7: roll 3 of `[2,3,1,1,4]` against `midGameCard` ends the
turn choosing CHANCE (realized 11 beats ACES' 2). -/
theorem final_roll_decision_witness :
    unscoredBoxes midGameCard ≠ [] ∧
    ∃ d, makeTurnDecision midGameCard [2, 3, 1, 1, 4] 3 1 allSixesDraw = some d ∧
      d.shouldEndTurn = true ∧ d.diceToReroll = [] ∧
      specFinalChoice (unscoredBoxes midGameCard) [2, 3, 1, 1, 4] midGameCard =
        some d.bestBox :=
  ⟨by decide,
    final_roll_decision midGameCard [2, 3, 1, 1, 4] 1 allSixesDraw (by decide)⟩

/-! ### C8: safety of the turn decision -/

theorem box_mem_all (b : Box) : b ∈ Box.all := by
  cases b <;> decide

theorem Box.all_nodup : Box.all.Nodup := by decide

theorem mem_unscoredBoxes {b : Box} {card : Scorecard} :
    b ∈ unscoredBoxes card ↔ card.boxScores b = none := by
  unfold unscoredBoxes
  rw [List.mem_filter]
  simp [box_mem_all]

theorem unscoredBoxes_nodup (card : Scorecard) : (unscoredBoxes card).Nodup :=
  Box.all_nodup.filter _

theorem checkStandard_ne_not (box : Box) (r : List Nat) :
    checkStandardScoreability box r ≠ Scoreability.NOT_SCOREABLE := by
  unfold checkStandardScoreability
  by_cases h : boxInRoll box r = true
  · rw [if_pos h]
    decide
  · rw [if_neg h]
    decide

theorem boxInRoll_yahtzee_iff (r : List Nat) :
    boxInRoll Box.YAHTZEE r = true ↔ maxCount r = 5 := by
  unfold boxInRoll
  rw [if_neg (by simp [Box.sectionOf])]
  simp

theorem checkScoreability_ne_not_of_calc {box : Box} {r : List Nat}
    {card : Scorecard} {u s : Nat}
    (h : calcBoxScoreFull box r card u = some s) :
    checkScoreability box r card ≠ Scoreability.NOT_SCOREABLE := by
  intro hc
  rw [← calcBoxScoreFull_eq_none_iff box r card u] at hc
  rw [h] at hc
  cases hc

/-- With at least one unscored box, some unscored box is always eligible:
the standard path never returns ineligible, and under the joker rule the
matched box, an open lower box, or (all lower filled) any open upper box is
points-scoreable. -/
theorem exists_eligible (card : Scorecard) (r : List Nat) (hv : ValidRoll r)
    (hne : unscoredBoxes card ≠ []) :
    ∃ b ∈ unscoredBoxes card,
      checkScoreability b r card ≠ Scoreability.NOT_SCOREABLE := by
  obtain ⟨b0, t0, hu⟩ : ∃ b t, unscoredBoxes card = b :: t := by
    cases hu : unscoredBoxes card with
    | nil => exact absurd hu hne
    | cons b t => exact ⟨b, t, rfl⟩
  have hb0mem : b0 ∈ unscoredBoxes card := by rw [hu]; exact List.mem_cons_self b0 t0
  have hb0n : card.boxScores b0 = none := mem_unscoredBoxes.mp hb0mem
  by_cases hj : jokerRulesActive r card = true
  · have hand := hj
    unfold jokerRulesActive at hand
    rw [Bool.and_eq_true] at hand
    have hmax : maxCount r = 5 := (boxInRoll_yahtzee_iff r).mp hand.1
    obtain ⟨v, hvr, hall⟩ := (maxCount_eq_five hv.1).mp hmax
    have hrne : r ≠ [] := List.ne_nil_of_mem hvr
    have hget : r.getD 0 0 = v := by
      cases r with
      | nil => exact absurd rfl hrne
      | cons x t => exact hall x (List.mem_cons_self x t)
    have hjk : ∀ b : Box, card.boxScores b = none →
        checkScoreability b r card = checkJokerScoreability b r card := by
      intro b hb
      unfold checkScoreability
      rw [if_neg (by simp [isScored, hb]), if_pos hj]
    by_cases hm : card.boxScores (Box.fromScoringNumber v) = none
    · refine ⟨Box.fromScoringNumber v, mem_unscoredBoxes.mpr hm, ?_⟩
      rw [hjk _ hm]
      unfold checkJokerScoreability
      rw [hget, if_pos (by simp [isScored, hm]), if_pos rfl]
      decide
    · have hms : isScored (Box.fromScoringNumber v) card = true := by
        simp [isScored, Option.ne_none_iff_isSome.mp hm]
      by_cases hlow : ∃ bl : Box, bl.sectionOf = Section.LOWER ∧
          card.boxScores bl = none
      · obtain ⟨bl, hbls, hbln⟩ := hlow
        refine ⟨bl, mem_unscoredBoxes.mpr hbln, ?_⟩
        rw [hjk _ hbln]
        unfold checkJokerScoreability
        rw [hget, if_neg (by simp [hms]),
          if_pos (by rw [lowerBoxes_contains]; simp [hbls])]
        decide
      · push_neg at hlow
        refine ⟨b0, hb0mem, ?_⟩
        rw [hjk _ hb0n]
        unfold checkJokerScoreability
        rw [hget, if_neg (by simp [hms])]
        by_cases hc : Box.lowerBoxes.contains b0 = true
        · rw [if_pos hc]
          decide
        · rw [if_neg hc, if_pos ?_]
          · decide
          · refine List.all_eq_true.mpr (fun c hcl => ?_)
            have := hlow c (mem_lowerBoxes.mp hcl)
            simp [isScored, Option.ne_none_iff_isSome.mp this]
  · refine ⟨b0, hb0mem, ?_⟩
    unfold checkScoreability
    rw [if_neg (by simp [isScored, hb0n]),
      if_neg (by simp [Bool.not_eq_true] at hj; simp [hj])]
    exact checkStandard_ne_not b0 r

theorem scorePairs_unscored_ne_nil (card : Scorecard) (r : List Nat)
    (u : Nat) (hv : ValidRoll r) (hne : unscoredBoxes card ≠ []) :
    scorePairs (unscoredBoxes card) r card u ≠ [] := by
  obtain ⟨b, hbmem, hbel⟩ := exists_eligible card r hv hne
  have hcalc : ∃ s, calcBoxScoreFull b r card u = some s := by
    cases hc : calcBoxScoreFull b r card u with
    | none => exact absurd ((calcBoxScoreFull_eq_none_iff _ _ _ _).mp hc) hbel
    | some s => exact ⟨s, rfl⟩
  obtain ⟨s, hs⟩ := hcalc
  exact List.ne_nil_of_mem (mem_scorePairs.mpr ⟨hbmem, hs⟩ : ((b, s) : Box × Nat) ∈ _)

theorem insertDescByCount_ne_nil (x : Nat × Nat) (l : List (Nat × Nat)) :
    insertDescByCount x l ≠ [] := by
  cases l with
  | nil => simp [insertDescByCount]
  | cons y ys =>
      unfold insertDescByCount
      by_cases h : y.2 ≤ x.2 <;> simp [h]

theorem insertDescByCount_length (x : Nat × Nat) (l : List (Nat × Nat)) :
    (insertDescByCount x l).length = l.length + 1 := by
  induction l with
  | nil => rfl
  | cons y ys ih =>
      unfold insertDescByCount
      by_cases h : y.2 ≤ x.2 <;> simp [h, ih]

theorem sortByCountDesc_length (l : List (Nat × Nat)) :
    (sortByCountDesc l).length = l.length := by
  induction l with
  | nil => rfl
  | cons x t ih =>
      unfold sortByCountDesc
      rw [insertDescByCount_length, ih]
      rfl

theorem counterList_cons_shape (x : Nat) (xs : List Nat) :
    ∃ a t', counterList (x :: xs) = a :: t' := by
  unfold counterList uniqueKeys
  exact ⟨_, _, rfl⟩

theorem mostCommon_cons {r : List Nat} (hr : r ≠ []) :
    ∃ mc mt, mostCommon r = mc :: mt := by
  obtain ⟨x, xs, rfl⟩ : ∃ x xs, r = x :: xs := by
    cases r with
    | nil => exact absurd rfl hr
    | cons x xs => exact ⟨x, xs, rfl⟩
  obtain ⟨a, t', hcl⟩ := counterList_cons_shape x xs
  unfold mostCommon
  rw [hcl]
  unfold sortByCountDesc
  cases hins : insertDescByCount a (sortByCountDesc t') with
  | nil => exact absurd hins (insertDescByCount_ne_nil _ _)
  | cons mc mt => exact ⟨mc, mt, rfl⟩

theorem counterList_singleton {r : List Nat} {p : Nat × Nat}
    (h : counterList r = [p]) :
    (∀ x ∈ r, x = p.1) ∧ p.2 = r.count p.1 ∧ p.1 ∈ r := by
  unfold counterList at h
  cases huk : uniqueKeys r with
  | nil => rw [huk] at h; cases h
  | cons v t =>
      rw [huk] at h
      simp only [List.map_cons, List.cons.injEq] at h
      obtain ⟨hvp, hmt⟩ := h
      have ht : t = [] := by
        cases t with
        | nil => rfl
        | cons w s => simp at hmt
      subst ht
      have hsing := uniqueKeys_eq_singleton.mp (huk : uniqueKeys r = [v])
      have hv : v ∈ r := mem_uniqueKeys.mp (by rw [huk]; exact List.mem_singleton_self v)
      subst hvp
      exact ⟨hsing.2, rfl, hv⟩

theorem mostCommon_singleton {r : List Nat} {mc : Nat × Nat}
    (h : mostCommon r = [mc]) : counterList r = [mc] := by
  have hlen := sortByCountDesc_length (counterList r)
  rw [show sortByCountDesc (counterList r) = mostCommon r from rfl, h] at hlen
  obtain ⟨q, hq⟩ : ∃ q, counterList r = [q] := by
    cases hc : counterList r with
    | nil => rw [hc] at hlen; cases hlen
    | cons q t =>
        rw [hc] at hlen
        cases t with
        | nil => exact ⟨q, rfl⟩
        | cons w s => simp at hlen
  have : mostCommon r = [q] := by
    unfold mostCommon
    rw [hq]
    rfl
  rw [hq, show mc = q from by rw [this] at h; injection h with h1; exact h1.symm]

theorem mostCommon_singleton_five {r : List Nat} {mc : Nat × Nat}
    (hlen : r.length = 5) (h : mostCommon r = [mc]) :
    mc.2 = 5 ∧ maxCount r = 5 := by
  have hc := mostCommon_singleton h
  obtain ⟨hall, hp2, hp1r⟩ := counterList_singleton hc
  have hcount : r.count mc.1 = r.length :=
    List.count_eq_length.mpr (fun b hb => (hall b hb).symm)
  have h5 : mc.2 = 5 := by rw [hp2, hcount, hlen]
  refine ⟨h5, ?_⟩
  rw [maxCount, hc]
  simp [h5]

theorem chooseDiceToReroll_isSome (box : Box) (r : List Nat)
    (hlen : r.length = 5) : ∃ m, chooseDiceToReroll box r = some m := by
  have hr : r ≠ [] := by
    intro h
    rw [h] at hlen
    simp at hlen
  obtain ⟨mc, mt, hmc⟩ := mostCommon_cons hr
  unfold chooseDiceToReroll
  rw [hmc]
  cases box
  case THREE_OF_A_KIND => exact ⟨_, rfl⟩
  case FOUR_OF_A_KIND => exact ⟨_, rfl⟩
  case SMALL_STRAIGHT => exact ⟨_, rfl⟩
  case LARGE_STRAIGHT => exact ⟨_, rfl⟩
  case CHANCE => exact ⟨_, rfl⟩
  case FULL_HOUSE =>
      show ∃ m, fullHouseStrategy r mc = some m
      unfold fullHouseStrategy
      by_cases hfh : boxInRoll Box.FULL_HOUSE r = true
      · rw [if_pos hfh]
        exact ⟨_, rfl⟩
      · rw [if_neg hfh]
        by_cases h2 : mc.2 = 2
        · rw [if_pos h2]
          obtain ⟨b, t, hbt⟩ : ∃ b t, mt = b :: t := by
            cases hmt : mt with
            | nil =>
                rw [hmt] at hmc
                have := (mostCommon_singleton_five hlen hmc).1
                rw [this] at h2
                cases h2
            | cons b t => exact ⟨b, t, rfl⟩
          rw [hmc, hbt]
          simp only [List.getElem?_cons_succ, List.getElem?_cons_zero]
          show ∃ m, (if b.2 = 2 then
              some ((List.range 5).filter
                (fun i => ¬ (r.getD i 0 = mc.1 ∨ r.getD i 0 = b.1)))
            else
              some ((List.range 5).filter (fun i => ¬ r.getD i 0 = mc.1))) = some m
          by_cases hb2 : b.2 = 2
          · rw [if_pos hb2]
            exact ⟨_, rfl⟩
          · rw [if_neg hb2]
            exact ⟨_, rfl⟩
        · rw [if_neg h2]
          by_cases h34 : 3 ≤ mc.2 ∧ mc.2 ≤ 4
          · rw [if_pos h34]
            exact ⟨_, rfl⟩
          · rw [if_neg h34]
            exact ⟨_, rfl⟩
  case YAHTZEE =>
      show ∃ m, yahtzeeStrategy r = some m
      unfold yahtzeeStrategy
      by_cases hy : boxInRoll Box.YAHTZEE r = true
      · rw [if_pos hy]
        exact ⟨_, rfl⟩
      · rw [if_neg hy]
        obtain ⟨b, t, hbt⟩ : ∃ b t, mt = b :: t := by
          cases hmt : mt with
          | nil =>
              rw [hmt] at hmc
              have := (mostCommon_singleton_five hlen hmc).2
              exact absurd ((boxInRoll_yahtzee_iff r).mpr this) hy
          | cons b t => exact ⟨b, t, rfl⟩
        rw [hmc, hbt]
        exact ⟨_, rfl⟩
  case ACES =>
      show ∃ m, upperStrategy Box.ACES r = some m
      unfold upperStrategy
      simp only [Box.dieNumber]
      by_cases h1 : 0 < r.count 1 <;> simp [h1]
  case TWOS =>
      show ∃ m, upperStrategy Box.TWOS r = some m
      unfold upperStrategy
      simp only [Box.dieNumber]
      by_cases h1 : 0 < r.count 2 <;> simp [h1]
  case THREES =>
      show ∃ m, upperStrategy Box.THREES r = some m
      unfold upperStrategy
      simp only [Box.dieNumber]
      by_cases h1 : 0 < r.count 3 <;> simp [h1]
  case FOURS =>
      show ∃ m, upperStrategy Box.FOURS r = some m
      unfold upperStrategy
      simp only [Box.dieNumber]
      by_cases h1 : 0 < r.count 4 <;> simp [h1]
  case FIVES =>
      show ∃ m, upperStrategy Box.FIVES r = some m
      unfold upperStrategy
      simp only [Box.dieNumber]
      by_cases h1 : 0 < r.count 5 <;> simp [h1]
  case SIXES =>
      show ∃ m, upperStrategy Box.SIXES r = some m
      unfold upperStrategy
      simp only [Box.dieNumber]
      by_cases h1 : 0 < r.count 6 <;> simp [h1]

theorem buildStrategies_spec {r : List Nat} {l : List Box}
    (h : ∀ b ∈ l, ∃ m, chooseDiceToReroll b r = some m) :
    ∃ st, buildStrategies r l = some st ∧ st.map Prod.fst = l ∧
      ∀ p ∈ st, chooseDiceToReroll p.1 r = some p.2 := by
  induction l with
  | nil => exact ⟨[], rfl, rfl, by simp⟩
  | cons b t ih =>
      obtain ⟨m, hm⟩ := h b (List.mem_cons_self b t)
      obtain ⟨st, hst, hkeys, hall⟩ :=
        ih (fun b' hb' => h b' (List.mem_cons_of_mem _ hb'))
      refine ⟨(b, m) :: st, ?_, by simp [hkeys], ?_⟩
      · unfold buildStrategies
        rw [hm, hst]
      · intro p hp
        rcases List.mem_cons.mp hp with h1 | h1
        · subst h1
          exact hm
        · exact hall p h1

theorem foldl_maxBy_mem (ys : List (Box × Rat)) (y : Box × Rat) :
    ys.foldl (fun cur z => if cur.2 < z.2 then z else cur) y ∈ y :: ys := by
  induction ys generalizing y with
  | nil => exact List.mem_singleton_self y
  | cons z zs ih =>
      rw [List.foldl_cons]
      have hin : (if y.2 < z.2 then z else y) ∈ y :: z :: zs := by
        by_cases hyz : y.2 < z.2 <;> simp [hyz]
      rcases List.mem_cons.mp (ih (if y.2 < z.2 then z else y)) with h | h
      · rw [h]
        exact hin
      · exact List.mem_cons_of_mem _ (List.mem_cons_of_mem _ h)

theorem maxByExpected_mem {l : List (Box × Rat)} {x : Box × Rat}
    (h : maxByExpected l = some x) : x ∈ l := by
  cases l with
  | nil => cases h
  | cons y ys =>
      unfold maxByExpected at h
      injection h with h
      rw [← h]
      exact foldl_maxBy_mem ys y

theorem makeTurnDecision_def (card : Scorecard) (r : List Nat)
    (rollCount trials : Nat) (draw : Box → Nat → Nat → Fin 6) :
    makeTurnDecision card r rollCount trials draw =
      if rollCount = 3 then makeFinalDecision (unscoredBoxes card) r card
      else
        match buildStrategies r (unscoredBoxes card) with
        | none => none
        | some strategies =>
            match maxByExpected (strategies.filterMap (fun p =>
              match alistLookup (simulateRolls card r p.2 trials (draw p.1)) p.1 with
              | some a => some (p.1, a.expectedScore)
              | none => none)) with
            | none => makeFinalDecision (unscoredBoxes card) r card
            | some best =>
                match alistLookup strategies best.1 with
                | none => none
                | some mask => some ⟨best.1, mask.isEmpty, mask⟩ := rfl

/-- C8 (amended): for rolls 1–3, a valid roll, and at least one unscored box,
the turn decision never raises (always returns a decision); whenever it
signals end-of-turn — always on roll 3, and on rolls 1–2 when the chosen
box's reroll mask is empty or no simulated result exists — the chosen box's
classification against the given roll and scorecard is never ineligible.
(When the decision returns a nonempty reroll mask the returned box is
advisory and may be ineligible against the current roll; see the
counterexample.) -/
theorem turn_decision_safety (card : Scorecard) (r : List Nat)
    (rollCount trials : Nat) (draw : Box → Nat → Nat → Fin 6)
    (hv : ValidRoll r) (hrc : rollCount = 1 ∨ rollCount = 2 ∨ rollCount = 3)
    (hne : unscoredBoxes card ≠ []) :
    ∃ d, makeTurnDecision card r rollCount trials draw = some d ∧
      (d.shouldEndTurn = true →
        checkScoreability d.bestBox r card ≠ Scoreability.NOT_SCOREABLE) := by
  have hfinal : ∃ d, makeFinalDecision (unscoredBoxes card) r card = some d ∧
      checkScoreability d.bestBox r card ≠ Scoreability.NOT_SCOREABLE := by
    obtain ⟨b, hdec, -, hcal⟩ :=
      makeFinalDecision_spec (unscoredBoxes card) r card hne
    obtain ⟨s, hs⟩ := hcal (scorePairs_unscored_ne_nil card r _ hv hne)
    exact ⟨⟨b, true, []⟩, hdec, checkScoreability_ne_not_of_calc hs⟩
  rw [makeTurnDecision_def]
  by_cases h3 : rollCount = 3
  · rw [if_pos h3]
    obtain ⟨d, hd, hel⟩ := hfinal
    exact ⟨d, hd, fun _ => hel⟩
  · rw [if_neg h3]
    obtain ⟨st, hst, hkeys, hall⟩ := buildStrategies_spec
      (fun b _ => chooseDiceToReroll_isSome b r hv.1)
    rw [hst]
    show ∃ d, (match maxByExpected (st.filterMap (fun p =>
        match alistLookup (simulateRolls card r p.2 trials (draw p.1)) p.1 with
        | some a => some (p.1, a.expectedScore)
        | none => none)) with
      | none => makeFinalDecision (unscoredBoxes card) r card
      | some best =>
          match alistLookup st best.1 with
          | none => none
          | some mask => some ⟨best.1, mask.isEmpty, mask⟩) = some d ∧
      (d.shouldEndTurn = true →
        checkScoreability d.bestBox r card ≠ Scoreability.NOT_SCOREABLE)
    cases hmax : maxByExpected (st.filterMap (fun p =>
        match alistLookup (simulateRolls card r p.2 trials (draw p.1)) p.1 with
        | some a => some (p.1, a.expectedScore)
        | none => none)) with
    | none =>
        obtain ⟨d, hd, hel⟩ := hfinal
        exact ⟨d, hd, fun _ => hel⟩
    | some best =>
        have hbm := maxByExpected_mem hmax
        obtain ⟨p, hpmem, hpeq⟩ := List.mem_filterMap.mp hbm
        cases hlk : alistLookup (simulateRolls card r p.2 trials (draw p.1)) p.1 with
        | none => rw [hlk] at hpeq; cases hpeq
        | some a =>
            rw [hlk, Option.some.injEq] at hpeq
            have hb1 : best.1 = p.1 := (congrArg Prod.fst hpeq).symm
            have hlkst : alistLookup st best.1 = some p.2 := by
              rw [hb1]
              exact alistLookup_of_mem_nodup
                (by rw [hkeys]; exact unscoredBoxes_nodup card) hpmem
            show ∃ d, (match alistLookup st best.1 with
              | none => (none : Option TurnDecision)
              | some mask => some ⟨best.1, mask.isEmpty, mask⟩) = some d ∧
              (d.shouldEndTurn = true →
                checkScoreability d.bestBox r card ≠ Scoreability.NOT_SCOREABLE)
            rw [hlkst]
            refine ⟨⟨best.1, p.2.isEmpty, p.2⟩, rfl, ?_⟩
            intro hend
            have hmask : p.2 = [] := List.isEmpty_iff.mp hend
            rw [hmask, simulateRolls_nil_mask] at hlk
            obtain ⟨-, -, -, s, hcalc, -⟩ := analyzeNoReroll_spec hlk
            show checkScoreability best.1 r card ≠ _
            rw [hb1]
            exact checkScoreability_ne_not_of_calc hcalc

/-- Witness for C8 (amended): roll 1 of `[6,6,6,6,6]` against `midGameCard`
(a joker situation with SIXES filled) returns a decision, eligible whenever
it ends the turn. -/
theorem turn_decision_safety_witness :
    ValidRoll [6, 6, 6, 6, 6] ∧
    ((1 : Nat) = 1 ∨ (1 : Nat) = 2 ∨ (1 : Nat) = 3) ∧
    unscoredBoxes midGameCard ≠ [] ∧
    ∃ d, makeTurnDecision midGameCard [6, 6, 6, 6, 6] 1 1 allSixesDraw =
        some d ∧
      (d.shouldEndTurn = true →
        checkScoreability d.bestBox [6, 6, 6, 6, 6] midGameCard ≠
          Scoreability.NOT_SCOREABLE) :=
  ⟨by decide, Or.inl rfl, by decide,
    turn_decision_safety midGameCard [6, 6, 6, 6, 6] 1 1 allSixesDraw
      (by decide) (Or.inl rfl) (by decide)⟩

end Yahtz
